import Mathlib

set_option maxHeartbeats 1000000

namespace BusTub

/-- Pointwise update of a function at one key, mirroring a C++ array or map write. -/
def updF {α : Type} (g : Int → α) (a : Int) (v : α) : Int → α :=
  fun x => if x = a then v else g x

theorem updF_self {α : Type} (g : Int → α) (a : Int) (v : α) : updF g a v a = v := by
  simp [updF]

theorem updF_ne {α : Type} (g : Int → α) (a : Int) (v : α) {x : Int} (h : x ≠ a) :
    updF g a v x = g x := by
  simp [updF, h]

theorem updF_eq_self {α : Type} (g : Int → α) (a : Int) : updF g a (g a) = g := by
  funext x
  by_cases h : x = a
  · subst h; simp [updF]
  · simp [updF, h]

theorem updF_updF {α : Type} (g : Int → α) (a : Int) (v w : α) :
    updF (updF g a v) a w = updF g a w := by
  funext x
  by_cases h : x = a
  · subst h; simp [updF]
  · simp [updF, h]

/-- Ordered insertion without duplicates, mirroring insertion into a C++ `std::set`
(ascending iteration order, no duplicate keys). -/
def insertSorted (x : Int) : List Int → List Int
  | [] => [x]
  | y :: ys => if x < y then x :: y :: ys else if x = y then y :: ys else y :: insertSorted x ys

theorem mem_insertSorted {g x : Int} : ∀ {l : List Int}, g ∈ insertSorted x l ↔ g = x ∨ g ∈ l := by
  intro l
  induction l with
  | nil => simp [insertSorted]
  | cons y ys ih =>
    by_cases h1 : x < y
    · simp only [insertSorted, if_pos h1, List.mem_cons]
    · by_cases h2 : x = y
      · simp only [insertSorted, if_neg h1, if_pos h2, List.mem_cons]
        subst h2
        tauto
      · simp only [insertSorted, if_neg h1, if_neg h2, List.mem_cons, ih]
        tauto

/-- Backward K-distance of an access history (oldest first): `none` stands for the
infinite distance `INF` used when fewer than `k` accesses are recorded; otherwise
the newest minus the oldest retained timestamp
(`node.history_.back() - node.history_.front()` in the source). -/
def kdOf (k : Nat) (h : List Nat) : Option Nat :=
  if h.length < k then none else some (h.getLastD 0 - h.headD 0)

/-- Strict comparison of two backward K-distances, `none` being the infinite one. -/
def kdGT : Option Nat → Option Nat → Bool
  | none, none => false
  | none, some _ => true
  | some _, none => false
  | some a, some b => decide (b < a)

theorem kdGT_trans {a b c : Option Nat} (h1 : kdGT a b = true) (h2 : kdGT b c = true) :
    kdGT a c = true := by
  cases a <;> cases b <;> cases c <;> simp [kdGT] at * <;> omega

theorem kdGT_asymm {a b : Option Nat} (h : kdGT a b = true) : kdGT b a = false := by
  cases a <;> cases b <;> simp [kdGT] at * <;> omega

/-- Trichotomy for the distance order. -/
theorem kdGT_total (a b : Option Nat) : kdGT a b = true ∨ a = b ∨ kdGT b a = true := by
  cases a <;> cases b <;> simp [kdGT] <;> omega

/-- The lexicographic "is at least as good a victim" relation between
(distance, oldest-timestamp) pairs used by the eviction scan. -/
def KdLex (a b : Option Nat) (x y : Nat) : Prop :=
  kdGT a b = true ∨ (a = b ∧ x ≤ y)

theorem KdLex_refl (a : Option Nat) (x : Nat) : KdLex a a x x := Or.inr ⟨rfl, le_refl x⟩

theorem KdLex_trans {a b c : Option Nat} {x y z : Nat}
    (h1 : KdLex a b x y) (h2 : KdLex b c y z) : KdLex a c x z := by
  rcases h1 with h1 | ⟨h1e, h1le⟩
  · rcases h2 with h2 | ⟨h2e, _⟩
    · exact Or.inl (kdGT_trans h1 h2)
    · subst h2e; exact Or.inl h1
  · subst h1e
    rcases h2 with h2 | ⟨h2e, h2le⟩
    · exact Or.inl h2
    · exact Or.inr ⟨h2e, le_trans h1le h2le⟩

/-- If the scan's strict replacement test fails, the incumbent is at least as good. -/
theorem KdLex_of_not_test {a b : Option Nat} {x y : Nat}
    (h : ¬(kdGT a b = true ∨ (a = b ∧ x < y))) : KdLex b a y x := by
  push_neg at h
  obtain ⟨h1, h2⟩ := h
  rcases kdGT_total b a with hg | he | hg
  · exact Or.inl hg
  · refine Or.inr ⟨he, ?_⟩
    have := h2 he.symm
    omega
  · exact absurd hg (by simp [h1])

/-- If the scan's strict replacement test succeeds, the challenger is at least as good. -/
theorem KdLex_of_test {a b : Option Nat} {x y : Nat}
    (h : kdGT a b = true ∨ (a = b ∧ x < y)) : KdLex a b x y := by
  rcases h with h | ⟨he, hlt⟩
  · exact Or.inl h
  · exact Or.inr ⟨he, le_of_lt hlt⟩

/-- Per-frame bookkeeping of the LRU-K replacer: `nodeStore` holds each frame's
bounded access history (oldest first), `evictable` the set of evictable frames
in the ascending order a `std::set` iterates in, and `currentTimestamp` the
monotonic access counter.  Frame ids are `Int`, matching the signed
`frame_id_t` of the source. -/
structure LRUKReplacer where
  numFrames : Nat
  k : Nat
  nodeStore : Int → List Nat
  evictable : List Int
  currentTimestamp : Nat

/-- Models `LRUKReplacer::LRUKReplacer(num_frames, k)`: empty histories, nothing evictable. -/
def LRUKReplacer.new (n k : Nat) : LRUKReplacer :=
  ⟨n, k, fun _ => [], [], 0⟩

/-- Body of `LRUKReplacer::RecordAccess` after the range check: append the current
timestamp, drop the oldest entry if the history exceeds `k`, bump the counter. -/
def LRUKReplacer.RecordAccessU (r : LRUKReplacer) (f : Int) : LRUKReplacer :=
  let h := r.nodeStore f ++ [r.currentTimestamp]
  let h' := if r.k < h.length then h.tail else h
  { r with nodeStore := updF r.nodeStore f h', currentTimestamp := r.currentTimestamp + 1 }

/-- Models `LRUKReplacer::RecordAccess`: throws `"Invalid frame ID"` when the frame id is
out of `[0, num_frames)`. -/
def LRUKReplacer.RecordAccess (r : LRUKReplacer) (f : Int) : Except String LRUKReplacer :=
  if f < 0 ∨ (r.numFrames : Int) ≤ f then Except.error "Invalid frame ID"
  else Except.ok (r.RecordAccessU f)

/-- Body of `LRUKReplacer::SetEvictable` after the range check: idempotent
insertion into / removal from the evictable set. -/
def LRUKReplacer.SetEvictableU (r : LRUKReplacer) (f : Int) (b : Bool) : LRUKReplacer :=
  let isEv := f ∈ r.evictable
  if isEv ∧ b = false then { r with evictable := r.evictable.filter (fun g => g ≠ f) }
  else if ¬isEv ∧ b = true then { r with evictable := insertSorted f r.evictable }
  else r

/-- Models `LRUKReplacer::SetEvictable`: throws `"Invalid frame ID"` when out of range. -/
def LRUKReplacer.SetEvictable (r : LRUKReplacer) (f : Int) (b : Bool) :
    Except String LRUKReplacer :=
  if f < 0 ∨ (r.numFrames : Int) ≤ f then Except.error "Invalid frame ID"
  else Except.ok (r.SetEvictableU f b)

/-- The scan loop of `LRUKReplacer::Evict`: walk the evictable frames, keeping the
best candidate as a `(frame, distance, oldest timestamp)` triple; a candidate
replaces the incumbent when its distance is strictly larger, or equal with a
strictly smaller oldest timestamp. -/
def evictScan (k : Nat) (store : Int → List Nat) :
    List Int → Option (Int × Option Nat × Nat) → Option (Int × Option Nat × Nat)
  | [], best => best
  | f :: fs, best =>
    let d := kdOf k (store f)
    let ts := (store f).headD 0
    let best' :=
      match best with
      | none => some (f, d, ts)
      | some (bf, bd, bts) =>
        if kdGT d bd = true ∨ (d = bd ∧ ts < bts) then some (f, d, ts) else some (bf, bd, bts)
    evictScan k store fs best'

/-- Models `LRUKReplacer::Evict`: on success the victim's history is cleared and it is
erased from the evictable set. -/
def LRUKReplacer.Evict (r : LRUKReplacer) : Option (Int × LRUKReplacer) :=
  match evictScan r.k r.nodeStore r.evictable none with
  | none => none
  | some (m, _, _) =>
    some (m, { r with nodeStore := updF r.nodeStore m [],
                      evictable := r.evictable.filter (fun g => g ≠ m) })

/-- Models `LRUKReplacer::Remove`: no range check; a no-op unless the frame is in the
evictable set, in which case only its history is cleared — the evictable set
itself is left untouched. -/
def LRUKReplacer.Remove (r : LRUKReplacer) (f : Int) : LRUKReplacer :=
  if f ∈ r.evictable then { r with nodeStore := updF r.nodeStore f [] } else r

/-- Models `LRUKReplacer::Size`. -/
def LRUKReplacer.Size (r : LRUKReplacer) : Nat := r.evictable.length

theorem evictScan_nil (k : Nat) (store : Int → List Nat) (best : Option (Int × Option Nat × Nat)) :
    evictScan k store [] best = best := rfl

theorem evictScan_cons_none (k : Nat) (store : Int → List Nat) (f : Int) (fs : List Int) :
    evictScan k store (f :: fs) none =
      evictScan k store fs (some (f, kdOf k (store f), (store f).headD 0)) := rfl

theorem evictScan_cons_some (k : Nat) (store : Int → List Nat) (f : Int) (fs : List Int)
    (bf : Int) (bd : Option Nat) (bts : Nat) :
    evictScan k store (f :: fs) (some (bf, bd, bts)) =
      evictScan k store fs
        (if kdGT (kdOf k (store f)) bd = true ∨ (kdOf k (store f) = bd ∧ (store f).headD 0 < bts)
         then some (f, kdOf k (store f), (store f).headD 0) else some (bf, bd, bts)) := rfl

/-- The scan over a list of candidates, started from an incumbent in canonical form,
returns a candidate in canonical form that is at least as good as the incumbent
and every scanned candidate. -/
theorem evictScan_spec (k : Nat) (store : Int → List Nat) :
    ∀ (fs : List Int) (bf : Int),
      ∃ m, evictScan k store fs (some (bf, kdOf k (store bf), (store bf).headD 0)) =
          some (m, kdOf k (store m), (store m).headD 0) ∧
        (m = bf ∨ m ∈ fs) ∧
        KdLex (kdOf k (store m)) (kdOf k (store bf)) ((store m).headD 0) ((store bf).headD 0) ∧
        ∀ f ∈ fs, KdLex (kdOf k (store m)) (kdOf k (store f))
          ((store m).headD 0) ((store f).headD 0) := by
  intro fs
  induction fs with
  | nil =>
    intro bf
    exact ⟨bf, rfl, Or.inl rfl, KdLex_refl _ _, by simp⟩
  | cons f fs ih =>
    intro bf
    rw [evictScan_cons_some]
    by_cases hc : kdGT (kdOf k (store f)) (kdOf k (store bf)) = true ∨
        (kdOf k (store f) = kdOf k (store bf) ∧ (store f).headD 0 < (store bf).headD 0)
    · rw [if_pos hc]
      obtain ⟨m, heq, hmem, hlex, hdom⟩ := ih f
      have hfb : KdLex (kdOf k (store f)) (kdOf k (store bf))
          ((store f).headD 0) ((store bf).headD 0) := KdLex_of_test hc
      refine ⟨m, heq, ?_, KdLex_trans hlex hfb, ?_⟩
      · rcases hmem with h | h
        · exact Or.inr (h ▸ List.mem_cons_self f fs)
        · exact Or.inr (List.mem_cons_of_mem f h)
      · intro g hg
        rcases List.mem_cons.mp hg with h | h
        · exact h ▸ hlex
        · exact hdom g h
    · rw [if_neg hc]
      obtain ⟨m, heq, hmem, hlex, hdom⟩ := ih bf
      have hbf : KdLex (kdOf k (store bf)) (kdOf k (store f))
          ((store bf).headD 0) ((store f).headD 0) := KdLex_of_not_test hc
      refine ⟨m, heq, ?_, hlex, ?_⟩
      · rcases hmem with h | h
        · exact Or.inl h
        · exact Or.inr (List.mem_cons_of_mem f h)
      · intro g hg
        rcases List.mem_cons.mp hg with h | h
        · exact h ▸ KdLex_trans hlex hbf
        · exact hdom g h

theorem Evict_of_evictable_nil {r : LRUKReplacer} (h : r.evictable = []) : r.Evict = none := by
  simp [LRUKReplacer.Evict, h, evictScan_nil]

/-- Characterisation of a successful `Evict`: given a non-empty evictable set, the
scan returns a victim dominating every candidate; the victim's history is cleared
and it is erased from the evictable set, all else untouched. -/
theorem Evict_some_spec {r : LRUKReplacer} {f0 : Int} {fs : List Int}
    (hev : r.evictable = f0 :: fs) :
    ∃ m r', r.Evict = some (m, r') ∧ m ∈ r.evictable ∧
      (∀ f ∈ r.evictable, KdLex (kdOf r.k (r.nodeStore m)) (kdOf r.k (r.nodeStore f))
        ((r.nodeStore m).headD 0) ((r.nodeStore f).headD 0)) ∧
      r'.nodeStore m = [] ∧ (∀ g, g ≠ m → r'.nodeStore g = r.nodeStore g) ∧
      (∀ g, g ∈ r'.evictable ↔ g ∈ r.evictable ∧ g ≠ m) ∧
      r'.numFrames = r.numFrames ∧ r'.k = r.k ∧ r'.currentTimestamp = r.currentTimestamp := by
  obtain ⟨m, heq, hmem, hlex, hdom⟩ := evictScan_spec r.k r.nodeStore fs f0
  refine ⟨m, (⟨r.numFrames, r.k, updF r.nodeStore m [],
              r.evictable.filter (fun g => g ≠ m), r.currentTimestamp⟩ : LRUKReplacer),
          ?_, ?_, ?_, updF_self _ _ _, fun g hg => updF_ne _ _ _ hg, ?_, rfl, rfl, rfl⟩
  · simp only [LRUKReplacer.Evict, hev, evictScan_cons_none, heq]
  · rw [hev]
    rcases hmem with h | h
    · exact h ▸ List.mem_cons_self f0 fs
    · exact List.mem_cons_of_mem f0 h
  · intro g hg
    rw [hev] at hg
    rcases List.mem_cons.mp hg with h | h
    · exact h ▸ hlex
    · exact hdom g h
  · intro g
    simp only [List.mem_filter, decide_eq_true_eq]

@[simp]
theorem SetEvictableU_nodeStore (r : LRUKReplacer) (f : Int) (b : Bool) :
    (r.SetEvictableU f b).nodeStore = r.nodeStore := by
  simp only [LRUKReplacer.SetEvictableU]
  split
  · rfl
  · split
    · rfl
    · rfl

@[simp]
theorem SetEvictableU_numFrames (r : LRUKReplacer) (f : Int) (b : Bool) :
    (r.SetEvictableU f b).numFrames = r.numFrames := by
  simp only [LRUKReplacer.SetEvictableU]
  split
  · rfl
  · split
    · rfl
    · rfl

@[simp]
theorem SetEvictableU_k (r : LRUKReplacer) (f : Int) (b : Bool) :
    (r.SetEvictableU f b).k = r.k := by
  simp only [LRUKReplacer.SetEvictableU]
  split
  · rfl
  · split
    · rfl
    · rfl

@[simp]
theorem SetEvictableU_currentTimestamp (r : LRUKReplacer) (f : Int) (b : Bool) :
    (r.SetEvictableU f b).currentTimestamp = r.currentTimestamp := by
  simp only [LRUKReplacer.SetEvictableU]
  split
  · rfl
  · split
    · rfl
    · rfl

theorem mem_SetEvictableU_false {r : LRUKReplacer} {f g : Int} :
    g ∈ (r.SetEvictableU f false).evictable ↔ g ∈ r.evictable ∧ g ≠ f := by
  by_cases h : f ∈ r.evictable
  · simp [LRUKReplacer.SetEvictableU, h, List.mem_filter]
  · simp only [LRUKReplacer.SetEvictableU, h]
    simp only [false_and, and_true, if_false, not_false_iff, true_and, Bool.false_eq_true,
      and_false, if_false]
    constructor
    · intro hg
      exact ⟨hg, fun he => h (he ▸ hg)⟩
    · exact fun hg => hg.1

theorem mem_SetEvictableU_true {r : LRUKReplacer} {f g : Int} :
    g ∈ (r.SetEvictableU f true).evictable ↔ g = f ∨ g ∈ r.evictable := by
  by_cases h : f ∈ r.evictable
  · simp only [LRUKReplacer.SetEvictableU, h, true_and, Bool.true_eq_false, if_false,
      not_true, false_and, if_false]
    constructor
    · exact fun hg => Or.inr hg
    · rintro (hg | hg)
      · exact hg ▸ h
      · exact hg
  · simp only [LRUKReplacer.SetEvictableU, h, false_and, if_false, not_false_iff, true_and,
      if_true, mem_insertSorted]

@[simp]
theorem RecordAccessU_evictable (r : LRUKReplacer) (f : Int) :
    (r.RecordAccessU f).evictable = r.evictable := rfl

@[simp]
theorem RecordAccessU_numFrames (r : LRUKReplacer) (f : Int) :
    (r.RecordAccessU f).numFrames = r.numFrames := rfl

@[simp]
theorem RecordAccessU_k (r : LRUKReplacer) (f : Int) :
    (r.RecordAccessU f).k = r.k := rfl

theorem RecordAccessU_nodeStore_ne (r : LRUKReplacer) (f : Int) {g : Int} (h : g ≠ f) :
    (r.RecordAccessU f).nodeStore g = r.nodeStore g := updF_ne _ _ _ h

@[simp]
theorem Remove_evictable (r : LRUKReplacer) (f : Int) :
    (r.Remove f).evictable = r.evictable := by
  simp only [LRUKReplacer.Remove]
  split
  · rfl
  · rfl

@[simp]
theorem Remove_numFrames (r : LRUKReplacer) (f : Int) :
    (r.Remove f).numFrames = r.numFrames := by
  simp only [LRUKReplacer.Remove]
  split
  · rfl
  · rfl

@[simp]
theorem Remove_k (r : LRUKReplacer) (f : Int) : (r.Remove f).k = r.k := by
  simp only [LRUKReplacer.Remove]
  split
  · rfl
  · rfl

theorem Remove_nodeStore_mem (r : LRUKReplacer) {f : Int} (h : f ∈ r.evictable) :
    (r.Remove f).nodeStore = updF r.nodeStore f [] := by
  simp [LRUKReplacer.Remove, h]

theorem Remove_nodeStore_ne (r : LRUKReplacer) (f : Int) {g : Int} (h : g ≠ f) :
    (r.Remove f).nodeStore g = r.nodeStore g := by
  simp only [LRUKReplacer.Remove]
  split
  · exact updF_ne _ _ _ h
  · rfl

/-- The invalid page id sentinel.  Modelled from the spec: the constant lives in a
configuration header that is not part of the sources; the spec only requires a
sentinel distinct from every allocated id, and allocation hands out `0, 1, 2, …`. -/
def INVALID_PAGE_ID : Int := -1

/-- One buffer frame (`Page` object).  `data` abstracts the `PAGE_SIZE` byte buffer
as a single value, `0` standing for the zeroed buffer; `latchR`/`latchW` model the
page's readers-writer latch (count of shared holders / exclusive flag).
Modelled from the spec in one respect: the `Page` class itself is declared in a
header that is not part of the sources; its default constructor yields
`page_id == INVALID_PAGE_ID`, `pin_count == 0`, `dirty == false`, zeroed data. -/
structure Frame where
  pageId : Int
  pinCount : Nat
  isDirty : Bool
  data : Nat
  latchR : Nat
  latchW : Bool
deriving DecidableEq

def Frame.new : Frame := ⟨INVALID_PAGE_ID, 0, false, 0, 0, false⟩

/-- The buffer pool manager state: the frame array, the page table
(`page_id → frame_id`, `none` when absent), the free list, the replacer, the
page id allocator, and — standing in for the external disk manager — the disk
contents, one abstract data value per page id. -/
structure BufferPoolManager where
  poolSize : Nat
  frames : Int → Frame
  pageTable : Int → Option Int
  freeList : List Int
  replacer : LRUKReplacer
  nextPageId : Int
  disk : Int → Nat

/-- Models `BufferPoolManager::BufferPoolManager`: every frame starts on the free list,
in ascending order; `next_page_id_` starts at 0. -/
def BufferPoolManager.new (n k : Nat) : BufferPoolManager :=
  ⟨n, fun _ => Frame.new, fun _ => none, List.map (fun i : Nat => (i : Int)) (List.range n),
   LRUKReplacer.new n k, 0, fun _ => 0⟩

/-- Models `BufferPoolManager::FindAndEvictFrame`: pop the free list if non-empty;
otherwise evict a victim, erase its page-table entry, write it back if dirty,
and reset its id and memory. -/
def BufferPoolManager.FindAndEvictFrame (s : BufferPoolManager) :
    Option (Int × BufferPoolManager) :=
  match s.freeList with
  | f :: rest => some (f, { s with freeList := rest })
  | [] =>
    match s.replacer.Evict with
    | none => none
    | some (f, r') =>
      let fr := s.frames f
      let s1 : BufferPoolManager :=
        { s with replacer := r', pageTable := updF s.pageTable fr.pageId none }
      let s2 : BufferPoolManager :=
        if fr.isDirty then
          { s1 with disk := updF s1.disk fr.pageId fr.data,
                    frames := updF s1.frames f { fr with isDirty := false } }
        else s1
      some (f, { s2 with
        frames := updF s2.frames f { s2.frames f with pageId := INVALID_PAGE_ID, data := 0 } })

/-- Models `BufferPoolManager::NewPage`: obtain a frame, pin it in the replacer and record
an access, allocate a fresh page id (`next_page_id_++`), install the mapping and
reset the frame with `pin_count = 1`. -/
def BufferPoolManager.NewPage (s : BufferPoolManager) : Option (Int × BufferPoolManager) :=
  match s.FindAndEvictFrame with
  | none => none
  | some (f, s1) =>
    let r1 := (s1.replacer.SetEvictableU f false).RecordAccessU f
    let pid := s1.nextPageId
    let fr := s1.frames f
    some (pid, { s1 with
      replacer := r1,
      nextPageId := pid + 1,
      frames := updF s1.frames f { fr with pageId := pid, pinCount := 1, data := 0 },
      pageTable := updF s1.pageTable pid (some f) })

/-- Models `BufferPoolManager::FetchPage`: on a hit, bump the pin count, pin in the
replacer, record an access; on a miss, obtain a frame, read the page from disk,
install the mapping (the source sets `pin_count = 0` and immediately increments
it to 1 under the same latch; the two writes are collapsed here), pin and record. -/
def BufferPoolManager.FetchPage (s : BufferPoolManager) (p : Int) :
    Option (Int × BufferPoolManager) :=
  match s.pageTable p with
  | some f =>
    let fr := s.frames f
    some (f, { s with
      frames := updF s.frames f { fr with pinCount := fr.pinCount + 1 },
      replacer := (s.replacer.SetEvictableU f false).RecordAccessU f })
  | none =>
    match s.FindAndEvictFrame with
    | none => none
    | some (f, s1) =>
      let fr := s1.frames f
      some (f, { s1 with
        frames := updF s1.frames f { fr with data := s1.disk p, pageId := p, pinCount := 1 },
        pageTable := updF s1.pageTable p (some f),
        replacer := (s1.replacer.SetEvictableU f false).RecordAccessU f })

/-- Models `BufferPoolManager::UnpinPage`: fails on a non-resident page or a zero pin
count; otherwise ORs the dirty flag, decrements the pin count and, when it
reaches zero, marks the frame evictable. -/
def BufferPoolManager.UnpinPage (s : BufferPoolManager) (p : Int) (isDirty : Bool) :
    Bool × BufferPoolManager :=
  match s.pageTable p with
  | none => (false, s)
  | some f =>
    let fr := s.frames f
    if fr.pinCount = 0 then (false, s)
    else
      let fr' : Frame := { fr with isDirty := fr.isDirty || isDirty,
                                   pinCount := fr.pinCount - 1 }
      let s1 : BufferPoolManager := { s with frames := updF s.frames f fr' }
      if fr.pinCount - 1 = 0 then
        (true, { s1 with replacer := s1.replacer.SetEvictableU f true })
      else (true, s1)

/-- Models `BufferPoolManager::FlushPage`: fails on a non-resident page; otherwise writes
the frame's data to disk and clears the dirty flag, regardless of the pin count. -/
def BufferPoolManager.FlushPage (s : BufferPoolManager) (p : Int) :
    Bool × BufferPoolManager :=
  match s.pageTable p with
  | none => (false, s)
  | some f =>
    let fr := s.frames f
    (true, { s with disk := updF s.disk p fr.data,
                    frames := updF s.frames f { fr with isDirty := false } })

/-- Models `BufferPoolManager::DeallocatePage`.  Modelled from the spec: the body lives in
the header, which is not part of the sources; per the spec it is a notification
only, with no reclamation, hence the identity. -/
def BufferPoolManager.DeallocatePage (s : BufferPoolManager) (_p : Int) : BufferPoolManager := s

/-- Models `BufferPoolManager::DeletePage`: vacuous success if not resident; failure if
pinned; otherwise write back if dirty, erase the page-table entry, reset the
frame's memory (but not its `page_id_`), call `Remove` on the replacer, push the
frame on the free list and notify the allocator. -/
def BufferPoolManager.DeletePage (s : BufferPoolManager) (p : Int) :
    Bool × BufferPoolManager :=
  match s.pageTable p with
  | none => (true, s)
  | some f =>
    let fr := s.frames f
    if 1 ≤ fr.pinCount then (false, s)
    else
      let s1 : BufferPoolManager :=
        if fr.isDirty then
          { s with disk := updF s.disk p fr.data,
                   frames := updF s.frames f { fr with isDirty := false } }
        else s
      let s2 : BufferPoolManager := { s1 with
        pageTable := updF s1.pageTable p none,
        frames := updF s1.frames f { s1.frames f with data := 0 },
        replacer := s1.replacer.Remove f,
        freeList := s1.freeList ++ [f] }
      (true, s2.DeallocatePage p)

/-- Take the page's readers-writer latch in shared mode (`Page::RLatch`). -/
def BufferPoolManager.RLatch (s : BufferPoolManager) (f : Int) : BufferPoolManager :=
  { s with frames := updF s.frames f { s.frames f with latchR := (s.frames f).latchR + 1 } }

/-- Release the shared latch (`Page::RUnlatch`). -/
def BufferPoolManager.RUnlatch (s : BufferPoolManager) (f : Int) : BufferPoolManager :=
  { s with frames := updF s.frames f { s.frames f with latchR := (s.frames f).latchR - 1 } }

/-- Take the latch in exclusive mode (`Page::WLatch`). -/
def BufferPoolManager.WLatch (s : BufferPoolManager) (f : Int) : BufferPoolManager :=
  { s with frames := updF s.frames f { s.frames f with latchW := true } }

/-- Release the exclusive latch (`Page::WUnlatch`). -/
def BufferPoolManager.WUnlatch (s : BufferPoolManager) (f : Int) : BufferPoolManager :=
  { s with frames := updF s.frames f { s.frames f with latchW := false } }

/-- Models `BasicPageGuard`: `page` is the held frame (`none` models a null `Page *`). -/
structure BasicPageGuard where
  page : Option Int
  isDirty : Bool
deriving DecidableEq

/-- Models `BasicPageGuard::Drop`: a no-op on an empty guard, otherwise unpins the page
with the guard's dirty flag and empties the guard. -/
def BasicPageGuard.Drop (s : BufferPoolManager) (g : BasicPageGuard) :
    BufferPoolManager × BasicPageGuard :=
  match g.page with
  | none => (s, g)
  | some f => ((s.UnpinPage (s.frames f).pageId g.isDirty).2, { g with page := none })

/-- Models `BasicPageGuard::operator=(BasicPageGuard &&)`: drop the current resource (a
basic drop: unpin only), then swap members with the source; the source is left
empty (its `page_` was nulled by the drop before the swap). -/
def BasicPageGuard.assign (s : BufferPoolManager) (dst src : BasicPageGuard) :
    BufferPoolManager × BasicPageGuard × BasicPageGuard :=
  let d1 := BasicPageGuard.Drop s dst
  (d1.1, ⟨src.page, src.isDirty⟩, ⟨none, d1.2.isDirty⟩)

/-- Models `ReadPageGuard`, which wraps a `BasicPageGuard` and, when occupied, a shared latch. -/
structure ReadPageGuard where
  guard : BasicPageGuard
deriving DecidableEq

/-- Models `WritePageGuard`, which wraps a `BasicPageGuard` and, when occupied, the exclusive
latch. -/
structure WritePageGuard where
  guard : BasicPageGuard
deriving DecidableEq

/-- Models `ReadPageGuard::Drop`: a no-op on an empty guard, otherwise releases the
shared latch first, then performs the basic drop. -/
def ReadPageGuard.Drop (s : BufferPoolManager) (g : ReadPageGuard) :
    BufferPoolManager × ReadPageGuard :=
  match g.guard.page with
  | none => (s, g)
  | some f =>
    let d := BasicPageGuard.Drop (s.RUnlatch f) g.guard
    (d.1, ⟨d.2⟩)

/-- Models `ReadPageGuard::operator=(ReadPageGuard &&)`: the source delegates directly to
the basic assignment (`guard_ = std::move(that.guard_)`), which drops the current
resource with a basic drop only — the shared latch is not released. -/
def ReadPageGuard.assign (s : BufferPoolManager) (dst src : ReadPageGuard) :
    BufferPoolManager × ReadPageGuard × ReadPageGuard :=
  let d := BasicPageGuard.assign s dst.guard src.guard
  (d.1, ⟨d.2.1⟩, ⟨d.2.2⟩)

/-- Models `WritePageGuard::Drop`: releases the exclusive latch, then the basic drop. -/
def WritePageGuard.Drop (s : BufferPoolManager) (g : WritePageGuard) :
    BufferPoolManager × WritePageGuard :=
  match g.guard.page with
  | none => (s, g)
  | some f =>
    let d := BasicPageGuard.Drop (s.WUnlatch f) g.guard
    (d.1, ⟨d.2⟩)

/-- Models `WritePageGuard::operator=(WritePageGuard &&)`: delegates to the basic
assignment; the exclusive latch of the current resource is not released. -/
def WritePageGuard.assign (s : BufferPoolManager) (dst src : WritePageGuard) :
    BufferPoolManager × WritePageGuard × WritePageGuard :=
  let d := BasicPageGuard.assign s dst.guard src.guard
  (d.1, ⟨d.2.1⟩, ⟨d.2.2⟩)

/-- Models `BufferPoolManager::FetchPageBasic`: wraps `FetchPage`'s result, null or not,
in a basic guard. -/
def BufferPoolManager.FetchPageBasic (s : BufferPoolManager) (p : Int) :
    BufferPoolManager × BasicPageGuard :=
  match s.FetchPage p with
  | none => (s, ⟨none, false⟩)
  | some (f, s1) => (s1, ⟨some f, false⟩)

/-- Models `BufferPoolManager::FetchPageRead`: calls `page->RLatch()` on `FetchPage`'s
result without a null check; when the pool is exhausted that dereferences a null
`Page` pointer, modelled as `none`. -/
def BufferPoolManager.FetchPageRead (s : BufferPoolManager) (p : Int) :
    Option (BufferPoolManager × ReadPageGuard) :=
  match s.FetchPage p with
  | none => none
  | some (f, s1) => some (s1.RLatch f, ⟨⟨some f, false⟩⟩)

/-- Models `BufferPoolManager::FetchPageWrite`: calls `page->WLatch()` without a null
check; a null result from `FetchPage` is dereferenced, modelled as `none`. -/
def BufferPoolManager.FetchPageWrite (s : BufferPoolManager) (p : Int) :
    Option (BufferPoolManager × WritePageGuard) :=
  match s.FetchPage p with
  | none => none
  | some (f, s1) => some (s1.WLatch f, ⟨⟨some f, false⟩⟩)

/-- Models `BufferPoolManager::NewPageGuarded`. -/
def BufferPoolManager.NewPageGuarded (s : BufferPoolManager) :
    BufferPoolManager × Option Int × BasicPageGuard :=
  match s.NewPage with
  | none => (s, none, ⟨none, false⟩)
  | some (pid, s1) => (s1, some pid, ⟨some (s1.pageTable pid).iget, false⟩)

/-- The public manager operations the reachability claims quantify over.  Page id
arguments are the non-negative integers of the spec's data model. -/
inductive Op where
  | newPage : Op
  | fetchPage : Nat → Op
  | unpinPage : Nat → Bool → Op
  | flushPage : Nat → Op
  | deletePage : Nat → Op

/-- One manager operation, discarding the returned value. -/
def step (s : BufferPoolManager) : Op → BufferPoolManager
  | .newPage =>
    match s.NewPage with
    | none => s
    | some (_, s') => s'
  | .fetchPage p =>
    match s.FetchPage (p : Int) with
    | none => s
    | some (_, s') => s'
  | .unpinPage p d => (s.UnpinPage (p : Int) d).2
  | .flushPage p => (s.FlushPage (p : Int)).2
  | .deletePage p => (s.DeletePage (p : Int)).2

/-- Well-typed use of the interface: `fetch_page` is called on an existing page id,
i.e. one below the allocation counter (the spec: a page becomes resident via
`new_page` (fresh id) or `fetch_page` (existing id)).  All other operations take
arbitrary page ids. -/
def ValidOp (s : BufferPoolManager) : Op → Prop
  | .fetchPage p => (p : Int) < s.nextPageId
  | _ => True

/-- States reachable from a fresh manager by well-typed operation sequences. -/
inductive Reachable (n k : Nat) : BufferPoolManager → Prop
  | base : Reachable n k (BufferPoolManager.new n k)
  | next : ∀ s op, Reachable n k s → ValidOp s op → Reachable n k (step s op)

/-- The inductive invariant of the buffer pool manager. -/
structure Inv (s : BufferPoolManager) : Prop where
  nextNonneg : 0 ≤ s.nextPageId
  ptKeyNonneg : ∀ p f, s.pageTable p = some f → 0 ≤ p
  ptKeyLt : ∀ p f, s.pageTable p = some f → p < s.nextPageId
  ptRange : ∀ p f, s.pageTable p = some f → 0 ≤ f ∧ f < (s.poolSize : Int)
  ptPageId : ∀ p f, s.pageTable p = some f → (s.frames f).pageId = p
  ptInj : ∀ p q f, s.pageTable p = some f → s.pageTable q = some f → p = q
  flRange : ∀ f ∈ s.freeList, 0 ≤ f ∧ f < (s.poolSize : Int)
  flNodup : s.freeList.Nodup
  flNotPT : ∀ f ∈ s.freeList, ∀ p, s.pageTable p ≠ some f
  flPin : ∀ f ∈ s.freeList, (s.frames f).pinCount = 0
  flClean : ∀ f ∈ s.freeList, (s.frames f).isDirty = false
  flHist : ∀ f ∈ s.freeList, s.replacer.nodeStore f = []
  flEv : ∀ f ∈ s.freeList, (f ∈ s.replacer.evictable ↔ (s.frames f).pageId ≠ INVALID_PAGE_ID)
  allFrames : ∀ f : Int, 0 ≤ f → f < (s.poolSize : Int) →
    f ∈ s.freeList ∨ ∃ p, s.pageTable p = some f
  evRange : ∀ f ∈ s.replacer.evictable, 0 ≤ f ∧ f < (s.poolSize : Int)
  evPin : ∀ f ∈ s.replacer.evictable, (s.frames f).pinCount = 0
  resEv : ∀ p f, s.pageTable p = some f →
    ((s.frames f).pinCount = 0 ↔ f ∈ s.replacer.evictable)

/-- The intermediate invariant after `FindAndEvictFrame` hands over frame `f`:
the state satisfies `Inv` except that `f` is accounted for nowhere — it is off
the free list, absent from the page table, unpinned, clean, with empty history.
(It may still sit in the evictable set when it came off the free list after a
`DeletePage`; the callers immediately mark it non-evictable.) -/
structure MidInv (s : BufferPoolManager) (f : Int) : Prop where
  nextNonneg : 0 ≤ s.nextPageId
  ptKeyNonneg : ∀ p g, s.pageTable p = some g → 0 ≤ p
  ptKeyLt : ∀ p g, s.pageTable p = some g → p < s.nextPageId
  ptRange : ∀ p g, s.pageTable p = some g → 0 ≤ g ∧ g < (s.poolSize : Int)
  ptPageId : ∀ p g, s.pageTable p = some g → (s.frames g).pageId = p
  ptInj : ∀ p q g, s.pageTable p = some g → s.pageTable q = some g → p = q
  flRange : ∀ g ∈ s.freeList, 0 ≤ g ∧ g < (s.poolSize : Int)
  flNodup : s.freeList.Nodup
  flNotPT : ∀ g ∈ s.freeList, ∀ p, s.pageTable p ≠ some g
  flPin : ∀ g ∈ s.freeList, (s.frames g).pinCount = 0
  flClean : ∀ g ∈ s.freeList, (s.frames g).isDirty = false
  flHist : ∀ g ∈ s.freeList, s.replacer.nodeStore g = []
  flEv : ∀ g ∈ s.freeList, (g ∈ s.replacer.evictable ↔ (s.frames g).pageId ≠ INVALID_PAGE_ID)
  allFrames : ∀ g : Int, 0 ≤ g → g < (s.poolSize : Int) →
    g = f ∨ g ∈ s.freeList ∨ ∃ p, s.pageTable p = some g
  evRange : ∀ g ∈ s.replacer.evictable, 0 ≤ g ∧ g < (s.poolSize : Int)
  evPin : ∀ g ∈ s.replacer.evictable, (s.frames g).pinCount = 0
  resEv : ∀ p g, s.pageTable p = some g →
    ((s.frames g).pinCount = 0 ↔ g ∈ s.replacer.evictable)
  fRange : 0 ≤ f ∧ f < (s.poolSize : Int)
  fNotFree : f ∉ s.freeList
  fNotPT : ∀ p, s.pageTable p ≠ some f
  fPin : (s.frames f).pinCount = 0
  fClean : (s.frames f).isDirty = false
  fHist : s.replacer.nodeStore f = []

theorem FindAndEvictFrame_cons {s : BufferPoolManager} {f0 : Int} {rest : List Int}
    (h : s.freeList = f0 :: rest) :
    s.FindAndEvictFrame = some (f0, { s with freeList := rest }) := by
  unfold BufferPoolManager.FindAndEvictFrame
  rw [h]

theorem FindAndEvictFrame_nil_none {s : BufferPoolManager}
    (hfl : s.freeList = []) (hev : s.replacer.Evict = none) :
    s.FindAndEvictFrame = none := by
  unfold BufferPoolManager.FindAndEvictFrame
  rw [hfl, hev]

theorem FindAndEvictFrame_nil_dirty {s : BufferPoolManager} {f : Int} {r' : LRUKReplacer}
    (hfl : s.freeList = []) (hev : s.replacer.Evict = some (f, r'))
    (hd : (s.frames f).isDirty = true) :
    s.FindAndEvictFrame = some (f, { s with
      replacer := r',
      pageTable := updF s.pageTable (s.frames f).pageId none,
      disk := updF s.disk (s.frames f).pageId (s.frames f).data,
      frames := updF s.frames f
        { s.frames f with isDirty := false, pageId := INVALID_PAGE_ID, data := 0 } }) := by
  unfold BufferPoolManager.FindAndEvictFrame
  rw [hfl, hev]
  simp only [hd, if_true, Option.some.injEq, Prod.mk.injEq, true_and]
  rw [updF_updF, updF_self]

theorem FindAndEvictFrame_nil_clean {s : BufferPoolManager} {f : Int} {r' : LRUKReplacer}
    (hfl : s.freeList = []) (hev : s.replacer.Evict = some (f, r'))
    (hd : (s.frames f).isDirty = false) :
    s.FindAndEvictFrame = some (f, { s with
      replacer := r',
      pageTable := updF s.pageTable (s.frames f).pageId none,
      frames := updF s.frames f
        { s.frames f with pageId := INVALID_PAGE_ID, data := 0 } }) := by
  unfold BufferPoolManager.FindAndEvictFrame
  rw [hfl, hev]
  simp only [hd, Bool.false_eq_true, if_false]

/-- After a successful eviction of victim `f` (resident at page-table key `q`), the
reassembled state — replacer output `r'`, `q` erased from the table, the victim
frame overwritten with a clean frame `frv` of unchanged pin count, any disk — is
in the intermediate invariant. -/
theorem evict_state_mid {s : BufferPoolManager} {f q : Int} {r' : LRUKReplacer}
    {frv : Frame} {d : Int → Nat}
    (hinv : Inv s) (hfl : s.freeList = [])
    (hmem : f ∈ s.replacer.evictable)
    (hq : s.pageTable q = some f)
    (hevmem : ∀ g, g ∈ r'.evictable ↔ g ∈ s.replacer.evictable ∧ g ≠ f)
    (hns : r'.nodeStore f = [])
    (hfrvPin : frv.pinCount = 0)
    (hfrvDirty : frv.isDirty = false) :
    MidInv ({ s with
              replacer := r', pageTable := updF s.pageTable q none,
              disk := d, frames := updF s.frames f frv }) f := by
  have hflnil : ∀ g : Int, g ∉ s.freeList := by rw [hfl]; simp
  have hPT : ∀ p g, updF s.pageTable q none p = some g → p ≠ q ∧ s.pageTable p = some g := by
    intro p g hp
    by_cases hpq : p = q
    · subst hpq; rw [updF_self] at hp; cases hp
    · exact ⟨hpq, by rwa [updF_ne _ _ _ hpq] at hp⟩
  have hgne : ∀ p g, p ≠ q → s.pageTable p = some g → g ≠ f := by
    intro p g hpq hp he
    subst he
    exact hpq (hinv.ptInj p q g hp hq)
  refine ⟨hinv.nextNonneg, ?_, ?_, ?_, ?_, ?_, ?_, hinv.flNodup, ?_, ?_, ?_, ?_, ?_, ?_,
          ?_, ?_, ?_, hinv.evRange f hmem, hflnil f, ?_, ?_, ?_, hns⟩
  · intro p g hp; exact hinv.ptKeyNonneg p g (hPT p g hp).2
  · intro p g hp; exact hinv.ptKeyLt p g (hPT p g hp).2
  · intro p g hp; exact hinv.ptRange p g (hPT p g hp).2
  · intro p g hp
    obtain ⟨hpq, hp2⟩ := hPT p g hp
    have hgf := hgne p g hpq hp2
    show (updF s.frames f frv g).pageId = p
    rw [updF_ne _ _ _ hgf]
    exact hinv.ptPageId p g hp2
  · intro p p2 g h1 h2; exact hinv.ptInj p p2 g (hPT _ _ h1).2 (hPT _ _ h2).2
  · intro g hg; exact absurd hg (hflnil g)
  · intro g hg; exact absurd hg (hflnil g)
  · intro g hg; exact absurd hg (hflnil g)
  · intro g hg; exact absurd hg (hflnil g)
  · intro g hg; exact absurd hg (hflnil g)
  · intro g hg; exact absurd hg (hflnil g)
  · intro g h0 h1
    rcases hinv.allFrames g h0 h1 with hfree | ⟨p, hp⟩
    · exact absurd hfree (hflnil g)
    · by_cases hgf : g = f
      · exact Or.inl hgf
      · right; right
        have hpq : p ≠ q := by
          intro he
          subst he
          rw [hp] at hq
          exact hgf (Option.some.inj hq)
        refine ⟨p, ?_⟩
        show updF s.pageTable q none p = some g
        rw [updF_ne _ _ _ hpq]
        exact hp
  · intro g hg; exact hinv.evRange g ((hevmem g).mp hg).1
  · intro g hg
    obtain ⟨hgs, hgf⟩ := (hevmem g).mp hg
    show (updF s.frames f frv g).pinCount = 0
    rw [updF_ne _ _ _ hgf]
    exact hinv.evPin g hgs
  · intro p g hp
    obtain ⟨hpq, hp2⟩ := hPT p g hp
    have hgf := hgne p g hpq hp2
    show (updF s.frames f frv g).pinCount = 0 ↔ g ∈ r'.evictable
    rw [updF_ne _ _ _ hgf, hevmem g, hinv.resEv p g hp2]
    simp [hgf]
  · intro p hp
    obtain ⟨hpq, hp2⟩ := hPT p f hp
    exact hgne p f hpq hp2 rfl
  · show (updF s.frames f frv f).pinCount = 0
    rw [updF_self]
    exact hfrvPin
  · show (updF s.frames f frv f).isDirty = false
    rw [updF_self]
    exact hfrvDirty

/-- Lemma: `FindAndEvictFrame` hands back a frame in the intermediate invariant; the pool
size and allocation counter are untouched, absent page-table keys stay absent,
and a dirty resident page whose table entry disappears has been written back. -/
theorem FindAndEvictFrame_mid {s s1 : BufferPoolManager} {f : Int}
    (hinv : Inv s) (h : s.FindAndEvictFrame = some (f, s1)) :
    MidInv s1 f ∧ s1.poolSize = s.poolSize ∧ s1.nextPageId = s.nextPageId ∧
    (∀ p, s.pageTable p = none → s1.pageTable p = none) ∧
    (∀ p g, s.pageTable p = some g → (s.frames g).isDirty = true →
      s1.pageTable p = none → s1.disk p = (s.frames g).data) := by
  cases hfl : s.freeList with
  | cons f0 rest =>
    rw [FindAndEvictFrame_cons hfl] at h
    simp only [Option.some.injEq, Prod.mk.injEq] at h
    obtain ⟨rfl, rfl⟩ := h
    have hf0 : f0 ∈ s.freeList := by rw [hfl]; exact List.mem_cons_self f0 rest
    have hnd := hinv.flNodup
    rw [hfl] at hnd
    have hf0nr : f0 ∉ rest := (List.nodup_cons.mp hnd).1
    have hrestnd : rest.Nodup := (List.nodup_cons.mp hnd).2
    have hsub : ∀ g, g ∈ rest → g ∈ s.freeList := by
      intro g hg; rw [hfl]; exact List.mem_cons_of_mem f0 hg
    refine ⟨⟨hinv.nextNonneg, hinv.ptKeyNonneg, hinv.ptKeyLt, hinv.ptRange, hinv.ptPageId,
      hinv.ptInj,
      fun g hg => hinv.flRange g (hsub g hg), hrestnd,
      fun g hg => hinv.flNotPT g (hsub g hg),
      fun g hg => hinv.flPin g (hsub g hg),
      fun g hg => hinv.flClean g (hsub g hg),
      fun g hg => hinv.flHist g (hsub g hg),
      fun g hg => hinv.flEv g (hsub g hg),
      ?_, hinv.evRange, hinv.evPin, hinv.resEv,
      hinv.flRange f0 hf0, hf0nr, hinv.flNotPT f0 hf0, hinv.flPin f0 hf0,
      hinv.flClean f0 hf0, hinv.flHist f0 hf0⟩,
      rfl, rfl, fun p hp => hp, ?_⟩
    · intro g h0 h1
      rcases hinv.allFrames g h0 h1 with hfree | hres
      · rw [hfl] at hfree
        rcases List.mem_cons.mp hfree with he | hin
        · exact Or.inl he
        · exact Or.inr (Or.inl hin)
      · exact Or.inr (Or.inr hres)
    · intro p g hp _ hn
      have hn2 : s.pageTable p = none := hn
      rw [hp] at hn2
      cases hn2
  | nil =>
    cases hevl : s.replacer.evictable with
    | nil =>
      rw [FindAndEvictFrame_nil_none hfl (Evict_of_evictable_nil hevl)] at h
      cases h
    | cons e0 es =>
      obtain ⟨m, r', hev, hmem, hdom, hns, hnsne, hevmem, hnF, hkk, hts⟩ := Evict_some_spec hevl
      have hrange := hinv.evRange m hmem
      have hres : ∃ p, s.pageTable p = some m := by
        rcases hinv.allFrames m hrange.1 hrange.2 with hfree | hres
        · rw [hfl] at hfree; cases hfree
        · exact hres
      obtain ⟨q, hq⟩ := hres
      have hqid : (s.frames m).pageId = q := hinv.ptPageId q m hq
      have hpin : (s.frames m).pinCount = 0 := hinv.evPin m hmem
      cases hd : (s.frames m).isDirty with
      | true =>
        rw [FindAndEvictFrame_nil_dirty hfl hev hd] at h
        rw [hqid] at h
        simp only [Option.some.injEq, Prod.mk.injEq] at h
        obtain ⟨rfl, rfl⟩ := h
        refine ⟨evict_state_mid hinv hfl hmem hq hevmem hns hpin rfl, rfl, rfl, ?_, ?_⟩
        · intro p hp
          by_cases hpq : p = q
          · subst hpq; exact updF_self _ _ _
          · show updF s.pageTable q none p = none
            rw [updF_ne _ _ _ hpq]
            exact hp
        · intro p g hp hgd hn
          by_cases hpq : p = q
          · have hgm : g = m := by
              rw [hpq, hq] at hp
              exact (Option.some.inj hp).symm
            show updF s.disk q (s.frames m).data p = (s.frames g).data
            rw [hpq, hgm]
            exact updF_self _ _ _
          · have hn2 : updF s.pageTable q none p = none := hn
            rw [updF_ne _ _ _ hpq, hp] at hn2
            cases hn2
      | false =>
        rw [FindAndEvictFrame_nil_clean hfl hev hd] at h
        rw [hqid] at h
        simp only [Option.some.injEq, Prod.mk.injEq] at h
        obtain ⟨rfl, rfl⟩ := h
        refine ⟨evict_state_mid hinv hfl hmem hq hevmem hns hpin hd, rfl, rfl, ?_, ?_⟩
        · intro p hp
          by_cases hpq : p = q
          · subst hpq; exact updF_self _ _ _
          · show updF s.pageTable q none p = none
            rw [updF_ne _ _ _ hpq]
            exact hp
        · intro p g hp hgd hn
          by_cases hpq : p = q
          · have hgm : g = m := by
              rw [hpq, hq] at hp
              exact (Option.some.inj hp).symm
            rw [hgm, hd] at hgd
            cases hgd
          · have hn2 : updF s.pageTable q none p = none := hn
            rw [updF_ne _ _ _ hpq, hp] at hn2
            cases hn2

/-- Installing page `q` into the handed-over frame `f` — fresh page-table key,
pin count 1, frame pinned in the replacer with an access recorded — restores the
full invariant. -/
theorem install_inv {s1 : BufferPoolManager} {f q : Int} {fr2 : Frame} {next2 : Int}
    (hm : MidInv s1 f)
    (hq0 : 0 ≤ q) (hqnone : s1.pageTable q = none) (hqlt : q < next2)
    (hkeys : ∀ p g, s1.pageTable p = some g → p < next2)
    (hnext0 : 0 ≤ next2)
    (hfrid : fr2.pageId = q) (hfrpin : fr2.pinCount = 1) :
    Inv ({ s1 with
           replacer := (s1.replacer.SetEvictableU f false).RecordAccessU f,
           nextPageId := next2,
           frames := updF s1.frames f fr2,
           pageTable := updF s1.pageTable q (some f) }) := by
  have hev2 : ∀ g, g ∈ ((s1.replacer.SetEvictableU f false).RecordAccessU f).evictable ↔
      g ∈ s1.replacer.evictable ∧ g ≠ f := by
    intro g
    rw [RecordAccessU_evictable]
    exact mem_SetEvictableU_false
  have hns2 : ∀ g, g ≠ f →
      ((s1.replacer.SetEvictableU f false).RecordAccessU f).nodeStore g =
        s1.replacer.nodeStore g := by
    intro g hg
    rw [RecordAccessU_nodeStore_ne _ _ hg, SetEvictableU_nodeStore]
  have hPT2 : ∀ p g, updF s1.pageTable q (some f) p = some g →
      (p = q ∧ g = f) ∨ (p ≠ q ∧ s1.pageTable p = some g) := by
    intro p g hp
    by_cases hpq : p = q
    · subst hpq
      rw [updF_self] at hp
      exact Or.inl ⟨rfl, (Option.some.inj hp).symm⟩
    · rw [updF_ne _ _ _ hpq] at hp
      exact Or.inr ⟨hpq, hp⟩
  have hgnef : ∀ p g, s1.pageTable p = some g → g ≠ f := by
    intro p g hp he
    subst he
    exact hm.fNotPT p hp
  refine ⟨hnext0, ?_, ?_, ?_, ?_, ?_, hm.flRange, hm.flNodup, ?_, ?_, ?_, ?_, ?_, ?_,
          ?_, ?_, ?_⟩
  · intro p g hp
    rcases hPT2 p g hp with ⟨rfl, _⟩ | ⟨_, hp2⟩
    · exact hq0
    · exact hm.ptKeyNonneg p g hp2
  · intro p g hp
    rcases hPT2 p g hp with ⟨rfl, _⟩ | ⟨_, hp2⟩
    · exact hqlt
    · exact hkeys p g hp2
  · intro p g hp
    rcases hPT2 p g hp with ⟨_, rfl⟩ | ⟨_, hp2⟩
    · exact hm.fRange
    · exact hm.ptRange p g hp2
  · intro p g hp
    rcases hPT2 p g hp with ⟨he1, he2⟩ | ⟨_, hp2⟩
    · show (updF s1.frames f fr2 g).pageId = p
      rw [he2, updF_self, hfrid, he1]
    · have hgf := hgnef p g hp2
      show (updF s1.frames f fr2 g).pageId = p
      rw [updF_ne _ _ _ hgf]
      exact hm.ptPageId p g hp2
  · intro p p2 g h1 h2
    rcases hPT2 p g h1 with ⟨rfl, rfl⟩ | ⟨hpq1, hp1⟩
    · rcases hPT2 p2 g h2 with ⟨rfl, _⟩ | ⟨_, hp2⟩
      · rfl
      · exact absurd rfl (hgnef p2 g hp2)
    · rcases hPT2 p2 g h2 with ⟨rfl, rfl⟩ | ⟨_, hp2⟩
      · exact absurd rfl (hgnef p g hp1)
      · exact hm.ptInj p p2 g hp1 hp2
  · intro g hg p hp
    rcases hPT2 p g hp with ⟨_, rfl⟩ | ⟨_, hp2⟩
    · exact hm.fNotFree hg
    · exact hm.flNotPT g hg p hp2
  · intro g hg
    have hgf : g ≠ f := fun he => hm.fNotFree (he ▸ hg)
    show (updF s1.frames f fr2 g).pinCount = 0
    rw [updF_ne _ _ _ hgf]
    exact hm.flPin g hg
  · intro g hg
    have hgf : g ≠ f := fun he => hm.fNotFree (he ▸ hg)
    show (updF s1.frames f fr2 g).isDirty = false
    rw [updF_ne _ _ _ hgf]
    exact hm.flClean g hg
  · intro g hg
    have hgf : g ≠ f := fun he => hm.fNotFree (he ▸ hg)
    show ((s1.replacer.SetEvictableU f false).RecordAccessU f).nodeStore g = []
    rw [hns2 g hgf]
    exact hm.flHist g hg
  · intro g hg
    have hgf : g ≠ f := fun he => hm.fNotFree (he ▸ hg)
    show _ ↔ (updF s1.frames f fr2 g).pageId ≠ INVALID_PAGE_ID
    rw [updF_ne _ _ _ hgf, hev2 g]
    have := hm.flEv g hg
    constructor
    · intro hx
      exact this.mp hx.1
    · intro hx
      exact ⟨this.mpr hx, hgf⟩
  · intro g h0 h1
    rcases hm.allFrames g h0 h1 with rfl | hfree | ⟨p, hp⟩
    · right
      exact ⟨q, updF_self _ _ _⟩
    · exact Or.inl hfree
    · right
      have hpq : p ≠ q := by
        intro he
        rw [he, hqnone] at hp
        cases hp
      refine ⟨p, ?_⟩
      show updF s1.pageTable q (some f) p = some g
      rw [updF_ne _ _ _ hpq]
      exact hp
  · intro g hg
    exact hm.evRange g ((hev2 g).mp hg).1
  · intro g hg
    obtain ⟨hgs, hgf⟩ := (hev2 g).mp hg
    show (updF s1.frames f fr2 g).pinCount = 0
    rw [updF_ne _ _ _ hgf]
    exact hm.evPin g hgs
  · intro p g hp
    rcases hPT2 p g hp with ⟨he1, he2⟩ | ⟨_, hp2⟩
    · show (updF s1.frames f fr2 g).pinCount = 0 ↔
        g ∈ ((s1.replacer.SetEvictableU f false).RecordAccessU f).evictable
      rw [he2, updF_self, hfrpin, hev2 f]
      constructor
      · intro hx; cases hx
      · intro hx
        exact absurd rfl hx.2
    · have hgf := hgnef p g hp2
      show (updF s1.frames f fr2 g).pinCount = 0 ↔ _
      rw [updF_ne _ _ _ hgf, hev2 g, hm.resEv p g hp2]
      simp [hgf]

theorem NewPage_eq_none {s : BufferPoolManager} (h : s.FindAndEvictFrame = none) :
    s.NewPage = none := by
  unfold BufferPoolManager.NewPage
  rw [h]

theorem NewPage_eq_some {s s1 : BufferPoolManager} {f : Int}
    (h : s.FindAndEvictFrame = some (f, s1)) :
    s.NewPage = some (s1.nextPageId, { s1 with
      replacer := (s1.replacer.SetEvictableU f false).RecordAccessU f,
      nextPageId := s1.nextPageId + 1,
      frames := updF s1.frames f
        { s1.frames f with pageId := s1.nextPageId, pinCount := 1, data := 0 },
      pageTable := updF s1.pageTable s1.nextPageId (some f) }) := by
  unfold BufferPoolManager.NewPage
  rw [h]

theorem FetchPage_hit {s : BufferPoolManager} {p f : Int} (h : s.pageTable p = some f) :
    s.FetchPage p = some (f, { s with
      frames := updF s.frames f
        { s.frames f with pinCount := (s.frames f).pinCount + 1 },
      replacer := (s.replacer.SetEvictableU f false).RecordAccessU f }) := by
  unfold BufferPoolManager.FetchPage
  rw [h]

theorem FetchPage_miss_none {s : BufferPoolManager} {p : Int}
    (hp : s.pageTable p = none) (h : s.FindAndEvictFrame = none) :
    s.FetchPage p = none := by
  unfold BufferPoolManager.FetchPage
  rw [hp, h]

theorem FetchPage_miss_some {s s1 : BufferPoolManager} {p f : Int}
    (hp : s.pageTable p = none) (h : s.FindAndEvictFrame = some (f, s1)) :
    s.FetchPage p = some (f, { s1 with
      frames := updF s1.frames f
        { s1.frames f with data := s1.disk p, pageId := p, pinCount := 1 },
      pageTable := updF s1.pageTable p (some f),
      replacer := (s1.replacer.SetEvictableU f false).RecordAccessU f }) := by
  unfold BufferPoolManager.FetchPage
  rw [hp, h]

theorem step_newPage_none {s : BufferPoolManager} (h : s.NewPage = none) :
    step s Op.newPage = s := by
  unfold step
  rw [h]

theorem step_newPage_some {s s2 : BufferPoolManager} {pid : Int}
    (h : s.NewPage = some (pid, s2)) : step s Op.newPage = s2 := by
  simp only [step]
  rw [h]

theorem step_fetchPage_none {s : BufferPoolManager} {p : Nat}
    (h : s.FetchPage (p : Int) = none) : step s (Op.fetchPage p) = s := by
  simp only [step]
  rw [h]

theorem step_fetchPage_some {s s2 : BufferPoolManager} {p : Nat} {f : Int}
    (h : s.FetchPage (p : Int) = some (f, s2)) : step s (Op.fetchPage p) = s2 := by
  simp only [step]
  rw [h]

theorem step_unpinPage {s : BufferPoolManager} {p : Nat} {d : Bool} :
    step s (Op.unpinPage p d) = (s.UnpinPage (p : Int) d).2 := rfl

theorem step_flushPage {s : BufferPoolManager} {p : Nat} :
    step s (Op.flushPage p) = (s.FlushPage (p : Int)).2 := rfl

theorem step_deletePage {s : BufferPoolManager} {p : Nat} :
    step s (Op.deletePage p) = (s.DeletePage (p : Int)).2 := rfl

theorem UnpinPage_none {s : BufferPoolManager} {p : Int} {d : Bool}
    (hp : s.pageTable p = none) : s.UnpinPage p d = (false, s) := by
  unfold BufferPoolManager.UnpinPage
  rw [hp]

theorem UnpinPage_zero {s : BufferPoolManager} {p f : Int} {d : Bool}
    (hp : s.pageTable p = some f) (h0 : (s.frames f).pinCount = 0) :
    s.UnpinPage p d = (false, s) := by
  unfold BufferPoolManager.UnpinPage
  rw [hp]
  simp only [h0, if_true, if_pos]

theorem UnpinPage_toZero {s : BufferPoolManager} {p f : Int} {d : Bool}
    (hp : s.pageTable p = some f) (h0 : (s.frames f).pinCount ≠ 0)
    (h1 : (s.frames f).pinCount - 1 = 0) :
    s.UnpinPage p d = (true, { s with
      frames := updF s.frames f
        { s.frames f with isDirty := (s.frames f).isDirty || d,
                          pinCount := (s.frames f).pinCount - 1 },
      replacer := s.replacer.SetEvictableU f true }) := by
  unfold BufferPoolManager.UnpinPage
  rw [hp]
  simp only [if_neg h0, if_pos h1]

theorem UnpinPage_dec {s : BufferPoolManager} {p f : Int} {d : Bool}
    (hp : s.pageTable p = some f) (h0 : (s.frames f).pinCount ≠ 0)
    (h1 : (s.frames f).pinCount - 1 ≠ 0) :
    s.UnpinPage p d = (true, { s with
      frames := updF s.frames f
        { s.frames f with isDirty := (s.frames f).isDirty || d,
                          pinCount := (s.frames f).pinCount - 1 } }) := by
  unfold BufferPoolManager.UnpinPage
  rw [hp]
  simp only [if_neg h0, if_neg h1]

theorem FlushPage_none {s : BufferPoolManager} {p : Int}
    (hp : s.pageTable p = none) : s.FlushPage p = (false, s) := by
  unfold BufferPoolManager.FlushPage
  rw [hp]

theorem FlushPage_some {s : BufferPoolManager} {p f : Int}
    (hp : s.pageTable p = some f) :
    s.FlushPage p = (true, { s with
      disk := updF s.disk p (s.frames f).data,
      frames := updF s.frames f { s.frames f with isDirty := false } }) := by
  unfold BufferPoolManager.FlushPage
  rw [hp]

theorem DeletePage_not_resident {s : BufferPoolManager} {p : Int}
    (hp : s.pageTable p = none) : s.DeletePage p = (true, s) := by
  unfold BufferPoolManager.DeletePage
  rw [hp]

theorem DeletePage_pinned {s : BufferPoolManager} {p f : Int}
    (hp : s.pageTable p = some f) (hpin : 1 ≤ (s.frames f).pinCount) :
    s.DeletePage p = (false, s) := by
  unfold BufferPoolManager.DeletePage
  rw [hp]
  simp only [if_pos hpin]

theorem DeletePage_ok_dirty {s : BufferPoolManager} {p f : Int}
    (hp : s.pageTable p = some f) (hpin : ¬1 ≤ (s.frames f).pinCount)
    (hd : (s.frames f).isDirty = true) :
    s.DeletePage p = (true, { s with
      disk := updF s.disk p (s.frames f).data,
      pageTable := updF s.pageTable p none,
      frames := updF s.frames f { s.frames f with isDirty := false, data := 0 },
      replacer := s.replacer.Remove f,
      freeList := s.freeList ++ [f] }) := by
  unfold BufferPoolManager.DeletePage BufferPoolManager.DeallocatePage
  rw [hp]
  simp only [if_neg hpin, hd, if_true, Prod.mk.injEq, true_and]
  rw [updF_updF, updF_self]

theorem DeletePage_ok_clean {s : BufferPoolManager} {p f : Int}
    (hp : s.pageTable p = some f) (hpin : ¬1 ≤ (s.frames f).pinCount)
    (hd : (s.frames f).isDirty = false) :
    s.DeletePage p = (true, { s with
      pageTable := updF s.pageTable p none,
      frames := updF s.frames f { s.frames f with data := 0 },
      replacer := s.replacer.Remove f,
      freeList := s.freeList ++ [f] }) := by
  unfold BufferPoolManager.DeletePage BufferPoolManager.DeallocatePage
  rw [hp]
  simp only [if_neg hpin, hd, Bool.false_eq_true, if_false]

/-- A fetch hit — pin count bumped, frame pinned in the replacer with an access
recorded — preserves the invariant. -/
theorem hit_inv {s : BufferPoolManager} {p f : Int}
    (hinv : Inv s) (hp : s.pageTable p = some f) :
    Inv ({ s with
           frames := updF s.frames f
             { s.frames f with pinCount := (s.frames f).pinCount + 1 },
           replacer := (s.replacer.SetEvictableU f false).RecordAccessU f }) := by
  have hev2 : ∀ g, g ∈ ((s.replacer.SetEvictableU f false).RecordAccessU f).evictable ↔
      g ∈ s.replacer.evictable ∧ g ≠ f := by
    intro g
    rw [RecordAccessU_evictable]
    exact mem_SetEvictableU_false
  have hns2 : ∀ g, g ≠ f →
      ((s.replacer.SetEvictableU f false).RecordAccessU f).nodeStore g =
        s.replacer.nodeStore g := by
    intro g hg
    rw [RecordAccessU_nodeStore_ne _ _ hg, SetEvictableU_nodeStore]
  have hflf : ∀ g ∈ s.freeList, g ≠ f := by
    intro g hg he
    exact hinv.flNotPT g hg p (he ▸ hp)
  refine ⟨hinv.nextNonneg, hinv.ptKeyNonneg, hinv.ptKeyLt, hinv.ptRange, ?_, hinv.ptInj,
          hinv.flRange, hinv.flNodup, hinv.flNotPT, ?_, ?_, ?_, ?_, hinv.allFrames,
          ?_, ?_, ?_⟩
  · intro p2 g hp2
    by_cases hgf : g = f
    · subst hgf
      show (updF s.frames g { s.frames g with pinCount := (s.frames g).pinCount + 1 } g).pageId
        = p2
      rw [updF_self]
      exact hinv.ptPageId p2 g hp2
    · show (updF s.frames f { s.frames f with pinCount := (s.frames f).pinCount + 1 } g).pageId
        = p2
      rw [updF_ne _ _ _ hgf]
      exact hinv.ptPageId p2 g hp2
  · intro g hg
    show (updF s.frames f _ g).pinCount = 0
    rw [updF_ne _ _ _ (hflf g hg)]
    exact hinv.flPin g hg
  · intro g hg
    show (updF s.frames f _ g).isDirty = false
    rw [updF_ne _ _ _ (hflf g hg)]
    exact hinv.flClean g hg
  · intro g hg
    show ((s.replacer.SetEvictableU f false).RecordAccessU f).nodeStore g = []
    rw [hns2 g (hflf g hg)]
    exact hinv.flHist g hg
  · intro g hg
    show _ ↔ (updF s.frames f _ g).pageId ≠ INVALID_PAGE_ID
    rw [updF_ne _ _ _ (hflf g hg), hev2 g]
    have := hinv.flEv g hg
    constructor
    · intro hx
      exact this.mp hx.1
    · intro hx
      exact ⟨this.mpr hx, hflf g hg⟩
  · intro g hg
    exact hinv.evRange g ((hev2 g).mp hg).1
  · intro g hg
    obtain ⟨hgs, hgf⟩ := (hev2 g).mp hg
    show (updF s.frames f _ g).pinCount = 0
    rw [updF_ne _ _ _ hgf]
    exact hinv.evPin g hgs
  · intro p2 g hp2
    by_cases hgf : g = f
    · subst hgf
      show (updF s.frames g { s.frames g with pinCount := (s.frames g).pinCount + 1 } g).pinCount
        = 0 ↔ _
      rw [updF_self, hev2 g]
      constructor
      · intro hx; cases hx
      · intro hx
        exact absurd rfl hx.2
    · show (updF s.frames f _ g).pinCount = 0 ↔ _
      rw [updF_ne _ _ _ hgf, hev2 g, hinv.resEv p2 g hp2]
      simp [hgf]

/-- An unpin that leaves the pin count positive preserves the invariant. -/
theorem unpin_dec_inv {s : BufferPoolManager} {p f : Int} {d : Bool}
    (hinv : Inv s) (hp : s.pageTable p = some f)
    (h1 : (s.frames f).pinCount - 1 ≠ 0) :
    Inv ({ s with
           frames := updF s.frames f
             { s.frames f with isDirty := (s.frames f).isDirty || d,
                               pinCount := (s.frames f).pinCount - 1 } }) := by
  have hflf : ∀ g ∈ s.freeList, g ≠ f := by
    intro g hg he
    exact hinv.flNotPT g hg p (he ▸ hp)
  have hfev : f ∉ s.replacer.evictable := by
    intro hmem
    exact h1 (by rw [hinv.evPin f hmem])
  refine ⟨hinv.nextNonneg, hinv.ptKeyNonneg, hinv.ptKeyLt, hinv.ptRange, ?_, hinv.ptInj,
          hinv.flRange, hinv.flNodup, hinv.flNotPT, ?_, ?_, hinv.flHist, ?_,
          hinv.allFrames, hinv.evRange, ?_, ?_⟩
  · intro p2 g hp2
    by_cases hgf : g = f
    · subst hgf
      show (updF s.frames g _ g).pageId = p2
      rw [updF_self]
      exact hinv.ptPageId p2 g hp2
    · show (updF s.frames f _ g).pageId = p2
      rw [updF_ne _ _ _ hgf]
      exact hinv.ptPageId p2 g hp2
  · intro g hg
    show (updF s.frames f _ g).pinCount = 0
    rw [updF_ne _ _ _ (hflf g hg)]
    exact hinv.flPin g hg
  · intro g hg
    show (updF s.frames f _ g).isDirty = false
    rw [updF_ne _ _ _ (hflf g hg)]
    exact hinv.flClean g hg
  · intro g hg
    show _ ↔ (updF s.frames f _ g).pageId ≠ INVALID_PAGE_ID
    rw [updF_ne _ _ _ (hflf g hg)]
    exact hinv.flEv g hg
  · intro g hg
    have hgf : g ≠ f := fun he => hfev (he ▸ hg)
    show (updF s.frames f _ g).pinCount = 0
    rw [updF_ne _ _ _ hgf]
    exact hinv.evPin g hg
  · intro p2 g hp2
    by_cases hgf : g = f
    · subst hgf
      show (updF s.frames g _ g).pinCount = 0 ↔ _
      rw [updF_self]
      constructor
      · intro hx
        exact absurd hx h1
      · intro hx
        exact absurd hx hfev
    · show (updF s.frames f _ g).pinCount = 0 ↔ _
      rw [updF_ne _ _ _ hgf]
      exact hinv.resEv p2 g hp2

/-- An unpin that drops the pin count to zero marks the frame evictable and
preserves the invariant. -/
theorem unpin_toZero_inv {s : BufferPoolManager} {p f : Int} {d : Bool}
    (hinv : Inv s) (hp : s.pageTable p = some f)
    (h0 : (s.frames f).pinCount ≠ 0) (h1 : (s.frames f).pinCount - 1 = 0) :
    Inv ({ s with
           frames := updF s.frames f
             { s.frames f with isDirty := (s.frames f).isDirty || d,
                               pinCount := (s.frames f).pinCount - 1 },
           replacer := s.replacer.SetEvictableU f true }) := by
  have hflf : ∀ g ∈ s.freeList, g ≠ f := by
    intro g hg he
    exact hinv.flNotPT g hg p (he ▸ hp)
  have hfev : f ∉ s.replacer.evictable := by
    intro hmem
    exact h0 (hinv.evPin f hmem)
  have hev2 : ∀ g, g ∈ (s.replacer.SetEvictableU f true).evictable ↔
      g = f ∨ g ∈ s.replacer.evictable := fun g => mem_SetEvictableU_true
  refine ⟨hinv.nextNonneg, hinv.ptKeyNonneg, hinv.ptKeyLt, hinv.ptRange, ?_, hinv.ptInj,
          hinv.flRange, hinv.flNodup, hinv.flNotPT, ?_, ?_, ?_, ?_,
          hinv.allFrames, ?_, ?_, ?_⟩
  · intro p2 g hp2
    by_cases hgf : g = f
    · subst hgf
      show (updF s.frames g _ g).pageId = p2
      rw [updF_self]
      exact hinv.ptPageId p2 g hp2
    · show (updF s.frames f _ g).pageId = p2
      rw [updF_ne _ _ _ hgf]
      exact hinv.ptPageId p2 g hp2
  · intro g hg
    show (updF s.frames f _ g).pinCount = 0
    rw [updF_ne _ _ _ (hflf g hg)]
    exact hinv.flPin g hg
  · intro g hg
    show (updF s.frames f _ g).isDirty = false
    rw [updF_ne _ _ _ (hflf g hg)]
    exact hinv.flClean g hg
  · intro g hg
    show (s.replacer.SetEvictableU f true).nodeStore g = []
    rw [SetEvictableU_nodeStore]
    exact hinv.flHist g hg
  · intro g hg
    show _ ↔ (updF s.frames f _ g).pageId ≠ INVALID_PAGE_ID
    rw [updF_ne _ _ _ (hflf g hg), hev2 g]
    have := hinv.flEv g hg
    constructor
    · rintro (he | hx)
      · exact absurd he (hflf g hg)
      · exact this.mp hx
    · intro hx
      exact Or.inr (this.mpr hx)
  · intro g hg
    rcases (hev2 g).mp hg with rfl | hx
    · exact hinv.ptRange p g hp
    · exact hinv.evRange g hx
  · intro g hg
    rcases (hev2 g).mp hg with rfl | hx
    · show (updF s.frames g _ g).pinCount = 0
      rw [updF_self]
      exact h1
    · have hgf : g ≠ f := fun he => hfev (he ▸ hx)
      show (updF s.frames f _ g).pinCount = 0
      rw [updF_ne _ _ _ hgf]
      exact hinv.evPin g hx
  · intro p2 g hp2
    by_cases hgf : g = f
    · subst hgf
      show (updF s.frames g _ g).pinCount = 0 ↔ _
      rw [updF_self, hev2 g]
      constructor
      · intro _
        exact Or.inl rfl
      · intro _
        exact h1
    · show (updF s.frames f _ g).pinCount = 0 ↔ _
      rw [updF_ne _ _ _ hgf, hev2 g, hinv.resEv p2 g hp2]
      constructor
      · intro hx
        exact Or.inr hx
      · rintro (he | hx)
        · exact absurd he hgf
        · exact hx

/-- A flush — disk write plus clearing the dirty flag — preserves the invariant. -/
theorem flush_inv {s : BufferPoolManager} {p f : Int}
    (hinv : Inv s) (hp : s.pageTable p = some f) :
    Inv ({ s with
           disk := updF s.disk p (s.frames f).data,
           frames := updF s.frames f { s.frames f with isDirty := false } }) := by
  have hflf : ∀ g ∈ s.freeList, g ≠ f := by
    intro g hg he
    exact hinv.flNotPT g hg p (he ▸ hp)
  refine ⟨hinv.nextNonneg, hinv.ptKeyNonneg, hinv.ptKeyLt, hinv.ptRange, ?_, hinv.ptInj,
          hinv.flRange, hinv.flNodup, hinv.flNotPT, ?_, ?_, hinv.flHist, ?_,
          hinv.allFrames, hinv.evRange, ?_, ?_⟩
  · intro p2 g hp2
    by_cases hgf : g = f
    · subst hgf
      show (updF s.frames g _ g).pageId = p2
      rw [updF_self]
      exact hinv.ptPageId p2 g hp2
    · show (updF s.frames f _ g).pageId = p2
      rw [updF_ne _ _ _ hgf]
      exact hinv.ptPageId p2 g hp2
  · intro g hg
    show (updF s.frames f _ g).pinCount = 0
    rw [updF_ne _ _ _ (hflf g hg)]
    exact hinv.flPin g hg
  · intro g hg
    show (updF s.frames f _ g).isDirty = false
    rw [updF_ne _ _ _ (hflf g hg)]
    exact hinv.flClean g hg
  · intro g hg
    show _ ↔ (updF s.frames f _ g).pageId ≠ INVALID_PAGE_ID
    rw [updF_ne _ _ _ (hflf g hg)]
    exact hinv.flEv g hg
  · intro g hg
    by_cases hgf : g = f
    · subst hgf
      show (updF s.frames g _ g).pinCount = 0
      rw [updF_self]
      exact hinv.evPin g hg
    · show (updF s.frames f _ g).pinCount = 0
      rw [updF_ne _ _ _ hgf]
      exact hinv.evPin g hg
  · intro p2 g hp2
    by_cases hgf : g = f
    · subst hgf
      show (updF s.frames g _ g).pinCount = 0 ↔ _
      rw [updF_self]
      exact hinv.resEv p2 g hp2
    · show (updF s.frames f _ g).pinCount = 0 ↔ _
      rw [updF_ne _ _ _ hgf]
      exact hinv.resEv p2 g hp2

/-- A successful delete — entry erased, frame cleaned and pushed on the free
list, history cleared, the frame left in the evictable set — preserves the
invariant. -/
theorem delete_state_inv {s : BufferPoolManager} {p f : Int} {frd : Frame} {d : Int → Nat}
    (hinv : Inv s) (hp : s.pageTable p = some f)
    (hpin0 : (s.frames f).pinCount = 0)
    (hfrdPin : frd.pinCount = 0) (hfrdDirty : frd.isDirty = false)
    (hfrdId : frd.pageId = p) :
    Inv ({ s with
           disk := d,
           pageTable := updF s.pageTable p none,
           frames := updF s.frames f frd,
           replacer := s.replacer.Remove f,
           freeList := s.freeList ++ [f] }) := by
  have hfev : f ∈ s.replacer.evictable := (hinv.resEv p f hp).mp hpin0
  have hns : (s.replacer.Remove f).nodeStore = updF s.replacer.nodeStore f [] :=
    Remove_nodeStore_mem s.replacer hfev
  have hfnf : f ∉ s.freeList := by
    intro hmem
    exact hinv.flNotPT f hmem p hp
  have hPT : ∀ p2 g, updF s.pageTable p none p2 = some g →
      p2 ≠ p ∧ s.pageTable p2 = some g := by
    intro p2 g hp2
    by_cases hpq : p2 = p
    · subst hpq; rw [updF_self] at hp2; cases hp2
    · exact ⟨hpq, by rwa [updF_ne _ _ _ hpq] at hp2⟩
  have hgne : ∀ p2 g, p2 ≠ p → s.pageTable p2 = some g → g ≠ f := by
    intro p2 g hpq hp2 he
    subst he
    exact hpq (hinv.ptInj p2 p g hp2 hp)
  have hmem2 : ∀ g : Int, g ∈ s.freeList ++ [f] ↔ g ∈ s.freeList ∨ g = f := by
    intro g
    simp [List.mem_append]
  have hp0 : 0 ≤ p := hinv.ptKeyNonneg p f hp
  refine ⟨hinv.nextNonneg, ?_, ?_, ?_, ?_, ?_, ?_, ?_, ?_, ?_, ?_, ?_, ?_, ?_, ?_, ?_, ?_⟩
  · intro p2 g hp2; exact hinv.ptKeyNonneg p2 g (hPT p2 g hp2).2
  · intro p2 g hp2; exact hinv.ptKeyLt p2 g (hPT p2 g hp2).2
  · intro p2 g hp2; exact hinv.ptRange p2 g (hPT p2 g hp2).2
  · intro p2 g hp2
    obtain ⟨hpq, hp3⟩ := hPT p2 g hp2
    have hgf := hgne p2 g hpq hp3
    show (updF s.frames f frd g).pageId = p2
    rw [updF_ne _ _ _ hgf]
    exact hinv.ptPageId p2 g hp3
  · intro p1 p2 g h1 h2
    exact hinv.ptInj p1 p2 g (hPT _ _ h1).2 (hPT _ _ h2).2
  · intro g hg
    rcases (hmem2 g).mp hg with hx | rfl
    · exact hinv.flRange g hx
    · exact hinv.ptRange p g hp
  · rw [List.nodup_append]
    refine ⟨hinv.flNodup, List.nodup_singleton f, ?_⟩
    intro a ha hb
    rw [List.mem_singleton] at hb
    exact hfnf (hb ▸ ha)
  · intro g hg p2 hp2
    obtain ⟨hpq, hp3⟩ := hPT p2 g hp2
    rcases (hmem2 g).mp hg with hx | rfl
    · exact hinv.flNotPT g hx p2 hp3
    · exact hpq (hinv.ptInj p2 p g hp3 hp)
  · intro g hg
    rcases (hmem2 g).mp hg with hx | rfl
    · have hgf : g ≠ f := by
        intro he
        rw [he] at hx
        exact hfnf hx
      show (updF s.frames f frd g).pinCount = 0
      rw [updF_ne _ _ _ hgf]
      exact hinv.flPin g hx
    · show (updF s.frames g frd g).pinCount = 0
      rw [updF_self]
      exact hfrdPin
  · intro g hg
    rcases (hmem2 g).mp hg with hx | rfl
    · have hgf : g ≠ f := by
        intro he
        rw [he] at hx
        exact hfnf hx
      show (updF s.frames f frd g).isDirty = false
      rw [updF_ne _ _ _ hgf]
      exact hinv.flClean g hx
    · show (updF s.frames g frd g).isDirty = false
      rw [updF_self]
      exact hfrdDirty
  · intro g hg
    show (s.replacer.Remove f).nodeStore g = []
    rw [hns]
    rcases (hmem2 g).mp hg with hx | rfl
    · have hgf : g ≠ f := by
        intro he
        rw [he] at hx
        exact hfnf hx
      rw [updF_ne _ _ _ hgf]
      exact hinv.flHist g hx
    · rw [updF_self]
  · intro g hg
    show g ∈ (s.replacer.Remove f).evictable ↔ (updF s.frames f frd g).pageId ≠ INVALID_PAGE_ID
    rw [Remove_evictable]
    rcases (hmem2 g).mp hg with hx | rfl
    · have hgf : g ≠ f := by
        intro he
        rw [he] at hx
        exact hfnf hx
      rw [updF_ne _ _ _ hgf]
      exact hinv.flEv g hx
    · rw [updF_self, hfrdId]
      constructor
      · intro _
        intro he
        rw [INVALID_PAGE_ID] at he
        omega
      · intro _
        exact hfev
  · intro g h0 h1
    rcases hinv.allFrames g h0 h1 with hx | ⟨p2, hp2⟩
    · exact Or.inl ((hmem2 g).mpr (Or.inl hx))
    · by_cases hgf : g = f
      · exact Or.inl ((hmem2 g).mpr (Or.inr hgf))
      · right
        have hpq : p2 ≠ p := by
          intro he
          rw [he, hp] at hp2
          exact hgf (Option.some.inj hp2).symm
        refine ⟨p2, ?_⟩
        show updF s.pageTable p none p2 = some g
        rw [updF_ne _ _ _ hpq]
        exact hp2
  · intro g hg
    rw [Remove_evictable] at hg
    exact hinv.evRange g hg
  · intro g hg
    rw [Remove_evictable] at hg
    by_cases hgf : g = f
    · subst hgf
      show (updF s.frames g frd g).pinCount = 0
      rw [updF_self]
      exact hfrdPin
    · show (updF s.frames f frd g).pinCount = 0
      rw [updF_ne _ _ _ hgf]
      exact hinv.evPin g hg
  · intro p2 g hp2
    obtain ⟨hpq, hp3⟩ := hPT p2 g hp2
    have hgf := hgne p2 g hpq hp3
    show (updF s.frames f frd g).pinCount = 0 ↔ g ∈ (s.replacer.Remove f).evictable
    rw [updF_ne _ _ _ hgf, Remove_evictable]
    exact hinv.resEv p2 g hp3

/-- Lemma: `unpin_page` preserves the invariant. -/
theorem Inv_step_unpinPage {s : BufferPoolManager} {p : Nat} {d : Bool}
    (hinv : Inv s) : Inv (step s (Op.unpinPage p d)) := by
  rw [step_unpinPage]
  cases hpt : s.pageTable (p : Int) with
  | none =>
    rw [UnpinPage_none hpt]
    exact hinv
  | some f =>
    by_cases h0 : (s.frames f).pinCount = 0
    · rw [UnpinPage_zero hpt h0]
      exact hinv
    · by_cases h1 : (s.frames f).pinCount - 1 = 0
      · rw [UnpinPage_toZero hpt h0 h1]
        exact unpin_toZero_inv hinv hpt h0 h1
      · rw [UnpinPage_dec hpt h0 h1]
        exact unpin_dec_inv hinv hpt h1

/-- Lemma: `flush_page` preserves the invariant. -/
theorem Inv_step_flushPage {s : BufferPoolManager} {p : Nat}
    (hinv : Inv s) : Inv (step s (Op.flushPage p)) := by
  rw [step_flushPage]
  cases hpt : s.pageTable (p : Int) with
  | none =>
    rw [FlushPage_none hpt]
    exact hinv
  | some f =>
    rw [FlushPage_some hpt]
    exact flush_inv hinv hpt

/-- Lemma: `delete_page` preserves the invariant. -/
theorem Inv_step_deletePage {s : BufferPoolManager} {p : Nat}
    (hinv : Inv s) : Inv (step s (Op.deletePage p)) := by
  rw [step_deletePage]
  cases hpt : s.pageTable (p : Int) with
  | none =>
    rw [DeletePage_not_resident hpt]
    exact hinv
  | some f =>
    by_cases hpin : 1 ≤ (s.frames f).pinCount
    · rw [DeletePage_pinned hpt hpin]
      exact hinv
    · have hpin0 : (s.frames f).pinCount = 0 := by omega
      have hfrdId : (s.frames f).pageId = (p : Int) := hinv.ptPageId _ f hpt
      cases hd : (s.frames f).isDirty with
      | true =>
        rw [DeletePage_ok_dirty hpt hpin hd]
        exact delete_state_inv hinv hpt hpin0 hpin0 rfl hfrdId
      | false =>
        rw [DeletePage_ok_clean hpt hpin hd]
        exact delete_state_inv hinv hpt hpin0 hpin0 hd hfrdId

/-- Lemma: `new_page` preserves the invariant. -/
theorem Inv_step_newPage {s : BufferPoolManager} (hinv : Inv s) :
    Inv (step s Op.newPage) := by
  cases hop : s.FindAndEvictFrame with
  | none =>
    rw [step_newPage_none (NewPage_eq_none hop)]
    exact hinv
  | some fs =>
    obtain ⟨f, s1⟩ := fs
    rw [step_newPage_some (NewPage_eq_some hop)]
    obtain ⟨hmid, hps, hnext, hptnone, hc5⟩ := FindAndEvictFrame_mid hinv hop
    have hqnone : s1.pageTable s1.nextPageId = none := by
      cases hcase : s1.pageTable s1.nextPageId with
      | none => rfl
      | some g => exact absurd (hmid.ptKeyLt _ g hcase) (lt_irrefl _)
    exact install_inv hmid hmid.nextNonneg hqnone (lt_add_one _)
      (fun p g hp => lt_trans (hmid.ptKeyLt p g hp) (lt_add_one _))
      (le_trans hmid.nextNonneg (le_of_lt (lt_add_one _)))
      rfl rfl

/-- Lemma: `fetch_page` on an existing page id preserves the invariant. -/
theorem Inv_step_fetchPage {s : BufferPoolManager} {p : Nat}
    (hinv : Inv s) (hvalid : (p : Int) < s.nextPageId) :
    Inv (step s (Op.fetchPage p)) := by
  cases hpt : s.pageTable (p : Int) with
  | some f =>
    rw [step_fetchPage_some (FetchPage_hit hpt)]
    exact hit_inv hinv hpt
  | none =>
    cases hop : s.FindAndEvictFrame with
    | none =>
      rw [step_fetchPage_none (FetchPage_miss_none hpt hop)]
      exact hinv
    | some fs =>
      obtain ⟨f, s1⟩ := fs
      rw [step_fetchPage_some (FetchPage_miss_some hpt hop)]
      obtain ⟨hmid, hps, hnext, hptnone, hc5⟩ := FindAndEvictFrame_mid hinv hop
      have hqlt : (p : Int) < s1.nextPageId := by rw [hnext]; exact hvalid
      exact install_inv hmid (Int.natCast_nonneg p) (hptnone _ hpt) hqlt
        hmid.ptKeyLt hmid.nextNonneg rfl rfl

/-- A fresh manager satisfies the invariant. -/
theorem Inv_new (n k : Nat) : Inv (BufferPoolManager.new n k) := by
  have hmem : ∀ f : Int,
      f ∈ List.map (fun i : Nat => (i : Int)) (List.range n) ↔ 0 ≤ f ∧ f < (n : Int) := by
    intro f
    simp only [List.mem_map, List.mem_range]
    constructor
    · rintro ⟨m, hm, he⟩
      omega
    · rintro ⟨h0, h1⟩
      exact ⟨f.toNat, by omega, by omega⟩
  refine ⟨le_refl 0, ?_, ?_, ?_, ?_, ?_, ?_, ?_, ?_, ?_, ?_, ?_, ?_, ?_, ?_, ?_, ?_⟩
  · intro p g h; cases h
  · intro p g h; cases h
  · intro p g h; cases h
  · intro p g h; cases h
  · intro p q g h; cases h
  · intro g hg; exact (hmem g).mp hg
  · refine List.Nodup.map ?_ (List.nodup_range n)
    intro a b h
    have h2 : (a : Int) = (b : Int) := h
    omega
  · intro g _ p h; cases h
  · intro g _; rfl
  · intro g _; rfl
  · intro g _; rfl
  · intro g _
    constructor
    · intro h; cases h
    · intro h; exact absurd rfl h
  · intro f h0 h1; exact Or.inl ((hmem f).mpr ⟨h0, h1⟩)
  · intro g hg; cases hg
  · intro g hg; cases hg
  · intro p g h; cases h

/-- Every reachable state satisfies the invariant. -/
theorem Inv_reachable {n k : Nat} {s : BufferPoolManager}
    (h : Reachable n k s) : Inv s := by
  induction h with
  | base => exact Inv_new n k
  | next s op _ hvalid ih =>
    cases op with
    | newPage => exact Inv_step_newPage ih
    | fetchPage p => exact Inv_step_fetchPage ih hvalid
    | unpinPage p d => exact Inv_step_unpinPage ih
    | flushPage p => exact Inv_step_flushPage ih
    | deletePage p => exact Inv_step_deletePage ih

/-- C1: in every reachable state, a frame is in the replacer's evictable set iff
it is resident (`page_id ≠ INVALID_PAGE_ID`) with `pin_count = 0`; equivalently,
its pin count is zero iff it is in the evictable set or on the free list. -/
theorem evictable_iff_resident_unpinned {n k : Nat} {s : BufferPoolManager}
    (h : Reachable n k s) (f : Int) (h0 : 0 ≤ f) (h1 : f < (s.poolSize : Int)) :
    (f ∈ s.replacer.evictable ↔
      ((s.frames f).pageId ≠ INVALID_PAGE_ID ∧ (s.frames f).pinCount = 0)) ∧
    ((s.frames f).pinCount = 0 ↔ f ∈ s.replacer.evictable ∨ f ∈ s.freeList) := by
  have hinv := Inv_reachable h
  constructor
  · constructor
    · intro hev
      refine ⟨?_, hinv.evPin f hev⟩
      rcases hinv.allFrames f h0 h1 with hfree | ⟨p, hp⟩
      · exact (hinv.flEv f hfree).mp hev
      · rw [hinv.ptPageId p f hp]
        have := hinv.ptKeyNonneg p f hp
        rw [INVALID_PAGE_ID]
        omega
    · rintro ⟨hid, hpin⟩
      rcases hinv.allFrames f h0 h1 with hfree | ⟨p, hp⟩
      · exact (hinv.flEv f hfree).mpr hid
      · exact (hinv.resEv p f hp).mp hpin
  · constructor
    · intro hpin
      rcases hinv.allFrames f h0 h1 with hfree | ⟨p, hp⟩
      · exact Or.inr hfree
      · exact Or.inl ((hinv.resEv p f hp).mp hpin)
    · rintro (hev | hfree)
      · exact hinv.evPin f hev
      · exact hinv.flPin f hfree

/-- Witness for C1: the biconditionals at frame 0 of a fresh two-frame pool. -/
theorem evictable_iff_resident_unpinned_witness :
    (((0 : Int) ∈ (BufferPoolManager.new 2 2).replacer.evictable ↔
      (((BufferPoolManager.new 2 2).frames 0).pageId ≠ INVALID_PAGE_ID ∧
        ((BufferPoolManager.new 2 2).frames 0).pinCount = 0)) ∧
    (((BufferPoolManager.new 2 2).frames 0).pinCount = 0 ↔
      (0 : Int) ∈ (BufferPoolManager.new 2 2).replacer.evictable ∨
        (0 : Int) ∈ (BufferPoolManager.new 2 2).freeList)) :=
  evictable_iff_resident_unpinned Reachable.base 0 (by decide) (by decide)

/-- The state of a one-frame pool after `new_page`, `unpin_page(p0, clean)`,
`delete_page(p0)`. -/
def deletedState : BufferPoolManager :=
  step (step (step (BufferPoolManager.new 1 1) Op.newPage)
    (Op.unpinPage 0 false)) (Op.deletePage 0)

/-- C3 counterexample: after a clean delete, the frame is back on the free list
but its `page_id` still holds the deleted page's id, not `INVALID_PAGE_ID`. -/
theorem freeList_stale_pageId_counterexample :
    Reachable 1 1 deletedState ∧
    (0 : Int) ∈ deletedState.freeList ∧
    (deletedState.frames 0).pageId = 0 ∧
    (deletedState.frames 0).pageId ≠ INVALID_PAGE_ID := by
  refine ⟨?_, by decide, by decide, by decide⟩
  exact Reachable.next _ (Op.deletePage 0)
    (Reachable.next _ (Op.unpinPage 0 false)
      (Reachable.next _ Op.newPage Reachable.base trivial) trivial) trivial

/-- C3 amended: in every reachable state every free-list frame is clean with an
empty replacer history (and zero pin count); its `page_id` is not reset and may
still hold the id of the page deleted out of it. -/
theorem freeList_clean_empty_history {n k : Nat} {s : BufferPoolManager}
    (h : Reachable n k s) :
    ∀ f ∈ s.freeList, (s.frames f).isDirty = false ∧
      s.replacer.nodeStore f = [] ∧ (s.frames f).pinCount = 0 :=
  fun f hf => ⟨(Inv_reachable h).flClean f hf, (Inv_reachable h).flHist f hf,
    (Inv_reachable h).flPin f hf⟩

/-- Witness for the amended C3: frame 0 of the post-delete state above. -/
theorem freeList_clean_empty_history_witness :
    (deletedState.frames 0).isDirty = false ∧
      deletedState.replacer.nodeStore 0 = [] ∧ (deletedState.frames 0).pinCount = 0 :=
  freeList_clean_empty_history
    (Reachable.next _ (Op.deletePage 0)
      (Reachable.next _ (Op.unpinPage 0 false)
        (Reachable.next _ Op.newPage Reachable.base trivial) trivial) trivial) 0 (by decide)

theorem UnpinPage_pageTable (s : BufferPoolManager) (q : Int) (d : Bool) :
    (s.UnpinPage q d).2.pageTable = s.pageTable := by
  cases hpt : s.pageTable q with
  | none => rw [UnpinPage_none hpt]
  | some f =>
    by_cases h0 : (s.frames f).pinCount = 0
    · rw [UnpinPage_zero hpt h0]
    · by_cases h1 : (s.frames f).pinCount - 1 = 0
      · rw [UnpinPage_toZero hpt h0 h1]
      · rw [UnpinPage_dec hpt h0 h1]

theorem FlushPage_pageTable (s : BufferPoolManager) (q : Int) :
    (s.FlushPage q).2.pageTable = s.pageTable := by
  cases hpt : s.pageTable q with
  | none => rw [FlushPage_none hpt]
  | some f => rw [FlushPage_some hpt]

/-- C5: a dirty resident page never leaves residency without its data first being
written to disk — across any single well-typed manager operation from a
reachable state, if page `p` was resident and dirty before and is not resident
after, the disk afterwards holds that page's data. -/
theorem dirty_discard_written_back {n k : Nat} {s : BufferPoolManager}
    (h : Reachable n k s) (op : Op) (hvalid : ValidOp s op) (p f : Int)
    (hp : s.pageTable p = some f) (hd : (s.frames f).isDirty = true)
    (hgone : (step s op).pageTable p = none) :
    (step s op).disk p = (s.frames f).data := by
  have hinv := Inv_reachable h
  cases op with
  | newPage =>
    cases hop : s.FindAndEvictFrame with
    | none =>
      rw [step_newPage_none (NewPage_eq_none hop)] at hgone
      rw [hp] at hgone
      cases hgone
    | some fs =>
      obtain ⟨g, s1⟩ := fs
      obtain ⟨hmid, hps, hnext, hptnone, hc5⟩ := FindAndEvictFrame_mid hinv hop
      rw [step_newPage_some (NewPage_eq_some hop)] at hgone
      rw [step_newPage_some (NewPage_eq_some hop)]
      have hgone2 : updF s1.pageTable s1.nextPageId (some g) p = none := hgone
      by_cases hpq : p = s1.nextPageId
      · rw [hpq, updF_self] at hgone2
        cases hgone2
      · rw [updF_ne _ _ _ hpq] at hgone2
        show s1.disk p = (s.frames f).data
        exact hc5 p f hp hd hgone2
  | fetchPage q =>
    cases hpt : s.pageTable (q : Int) with
    | some g =>
      rw [step_fetchPage_some (FetchPage_hit hpt)] at hgone
      have hgone2 : s.pageTable p = none := hgone
      rw [hp] at hgone2
      cases hgone2
    | none =>
      cases hop : s.FindAndEvictFrame with
      | none =>
        rw [step_fetchPage_none (FetchPage_miss_none hpt hop)] at hgone
        rw [hp] at hgone
        cases hgone
      | some fs =>
        obtain ⟨g, s1⟩ := fs
        obtain ⟨hmid, hps, hnext, hptnone, hc5⟩ := FindAndEvictFrame_mid hinv hop
        rw [step_fetchPage_some (FetchPage_miss_some hpt hop)] at hgone
        rw [step_fetchPage_some (FetchPage_miss_some hpt hop)]
        have hgone2 : updF s1.pageTable (q : Int) (some g) p = none := hgone
        by_cases hpq : p = (q : Int)
        · rw [hpq, updF_self] at hgone2
          cases hgone2
        · rw [updF_ne _ _ _ hpq] at hgone2
          show s1.disk p = (s.frames f).data
          exact hc5 p f hp hd hgone2
  | unpinPage q d =>
    rw [step_unpinPage, UnpinPage_pageTable, hp] at hgone
    cases hgone
  | flushPage q =>
    rw [step_flushPage, FlushPage_pageTable, hp] at hgone
    cases hgone
  | deletePage q =>
    rw [step_deletePage] at hgone
    rw [step_deletePage]
    cases hpt : s.pageTable (q : Int) with
    | none =>
      rw [DeletePage_not_resident hpt] at hgone
      rw [DeletePage_not_resident hpt]
      rw [hp] at hgone
      cases hgone
    | some g =>
      by_cases hpin : 1 ≤ (s.frames g).pinCount
      · rw [DeletePage_pinned hpt hpin] at hgone
        rw [DeletePage_pinned hpt hpin]
        rw [hp] at hgone
        cases hgone
      · cases hdg : (s.frames g).isDirty with
        | true =>
          rw [DeletePage_ok_dirty hpt hpin hdg] at hgone
          rw [DeletePage_ok_dirty hpt hpin hdg]
          have hgone2 : updF s.pageTable (q : Int) none p = none := hgone
          by_cases hpq : p = (q : Int)
          · have hgf : f = g := by
              rw [hpq, hpt] at hp
              exact (Option.some.inj hp).symm
            show updF s.disk (q : Int) (s.frames g).data p = (s.frames f).data
            rw [hpq, updF_self, hgf]
          · rw [updF_ne _ _ _ hpq, hp] at hgone2
            cases hgone2
        | false =>
          rw [DeletePage_ok_clean hpt hpin hdg] at hgone
          have hgone2 : updF s.pageTable (q : Int) none p = none := hgone
          by_cases hpq : p = (q : Int)
          · have hgf : f = g := by
              rw [hpq, hpt] at hp
              exact (Option.some.inj hp).symm
            rw [hgf, hdg] at hd
            cases hd
          · rw [updF_ne _ _ _ hpq, hp] at hgone2
            cases hgone2

/-- The one-frame pool with page 0 resident and dirty, pin count zero. -/
def dirtyState : BufferPoolManager :=
  step (step (BufferPoolManager.new 1 1) Op.newPage) (Op.unpinPage 0 true)

/-- Witness for C5: deleting the dirty page 0 erases its entry and the disk then
holds its data. -/
theorem dirty_discard_written_back_witness :
    dirtyState.pageTable 0 = some 0 ∧
    (dirtyState.frames 0).isDirty = true ∧
    (step dirtyState (Op.deletePage 0)).pageTable 0 = none ∧
    (step dirtyState (Op.deletePage 0)).disk 0 = (dirtyState.frames 0).data :=
  ⟨by decide, by decide, by decide,
    dirty_discard_written_back
      (Reachable.next _ (Op.unpinPage 0 true)
        (Reachable.next _ Op.newPage Reachable.base trivial) trivial)
      (Op.deletePage 0) trivial 0 0 (by decide) (by decide) (by decide)⟩

/-- C6: delete_page returns true on a non-resident page; on a resident pinned
page it returns false leaving the whole state untouched; on a resident unpinned
page it returns true, removes the page-table entry, pushes the frame on the free
list, and writes the page back exactly when it was dirty. -/
theorem DeletePage_contract (s : BufferPoolManager) (p : Int) :
    (s.pageTable p = none → s.DeletePage p = (true, s)) ∧
    (∀ f, s.pageTable p = some f → 1 ≤ (s.frames f).pinCount →
      s.DeletePage p = (false, s)) ∧
    (∀ f, s.pageTable p = some f → (s.frames f).pinCount = 0 →
      (s.DeletePage p).1 = true ∧
      (s.DeletePage p).2.pageTable p = none ∧
      (s.DeletePage p).2.freeList = s.freeList ++ [f] ∧
      ((s.frames f).isDirty = true → (s.DeletePage p).2.disk p = (s.frames f).data) ∧
      ((s.frames f).isDirty = false → (s.DeletePage p).2.disk = s.disk)) := by
  refine ⟨fun hp => DeletePage_not_resident hp,
          fun f hp hpin => DeletePage_pinned hp hpin, ?_⟩
  intro f hp hpin0
  have hnp : ¬1 ≤ (s.frames f).pinCount := by omega
  cases hd : (s.frames f).isDirty with
  | true =>
    rw [DeletePage_ok_dirty hp hnp hd]
    refine ⟨rfl, updF_self _ _ _, rfl, fun _ => updF_self _ _ _, fun hfalse => ?_⟩
    cases hfalse
  | false =>
    rw [DeletePage_ok_clean hp hnp hd]
    refine ⟨rfl, updF_self _ _ _, rfl, fun htrue => ?_, fun _ => rfl⟩
    cases htrue

/-- The one-frame pool with page 0 resident and pinned. -/
def pinnedState : BufferPoolManager := step (BufferPoolManager.new 1 1) Op.newPage

/-- Witness for C6: vacuous success on a never-allocated page, refusal on the
pinned page, and full success (clean, so the disk is untouched) after unpin. -/
theorem DeletePage_contract_witness :
    ((BufferPoolManager.new 1 1).DeletePage 5 = (true, BufferPoolManager.new 1 1)) ∧
    (pinnedState.DeletePage 0 = (false, pinnedState)) ∧
    (deletedState.DeletePage 0 = (true, deletedState)) ∧
    ((step (step (BufferPoolManager.new 1 1) Op.newPage) (Op.unpinPage 0 false)).DeletePage
        0).2.freeList =
      (step (step (BufferPoolManager.new 1 1) Op.newPage) (Op.unpinPage 0 false)).freeList
        ++ [0] :=
  ⟨(DeletePage_contract (BufferPoolManager.new 1 1) 5).1 (by decide),
   (DeletePage_contract pinnedState 0).2.1 0 (by decide) (by decide),
   (DeletePage_contract deletedState 0).1 (by decide),
   ((DeletePage_contract (step (step (BufferPoolManager.new 1 1) Op.newPage)
      (Op.unpinPage 0 false)) 0).2.2 0 (by decide) (by decide)).2.2.1⟩

/-- C8: flushing a resident page twice in succession (no intervening writes)
leaves exactly the state of flushing it once — in particular the same disk — and
the dirty flag is already false after the first flush. -/
theorem BufferPoolManager.ext {a b : BufferPoolManager}
    (h1 : a.poolSize = b.poolSize) (h2 : a.frames = b.frames)
    (h3 : a.pageTable = b.pageTable) (h4 : a.freeList = b.freeList)
    (h5 : a.replacer = b.replacer) (h6 : a.nextPageId = b.nextPageId)
    (h7 : a.disk = b.disk) : a = b := by
  cases a
  cases b
  simp_all

theorem FlushPage_idempotent (s : BufferPoolManager) (p f : Int)
    (hp : s.pageTable p = some f) :
    ((s.FlushPage p).2.frames f).isDirty = false ∧
    ((s.FlushPage p).2.FlushPage p).2 = (s.FlushPage p).2 := by
  rw [FlushPage_some hp]
  set s1 : BufferPoolManager := { s with
    disk := updF s.disk p (s.frames f).data,
    frames := updF s.frames f { s.frames f with isDirty := false } } with hs1
  have hfr : s1.frames f = { s.frames f with isDirty := false } := by
    rw [hs1]
    exact updF_self _ _ _
  have hp1 : s1.pageTable p = some f := hp
  constructor
  · rw [hfr]
  · rw [FlushPage_some hp1]
    refine BufferPoolManager.ext rfl ?_ rfl rfl rfl rfl ?_
    · show updF s1.frames f { s1.frames f with isDirty := false } = s1.frames
      have hX : ({ s1.frames f with isDirty := false } : Frame) = s1.frames f := by
        rw [hfr]
      rw [hX, updF_eq_self]
    · show updF s1.disk p (s1.frames f).data = s1.disk
      have hdata : (s1.frames f).data = (s.frames f).data := by rw [hfr]
      rw [hdata]
      show updF (updF s.disk p (s.frames f).data) p (s.frames f).data =
        updF s.disk p (s.frames f).data
      rw [updF_updF]

/-- Witness for C8: double flush of the freshly allocated page 0. -/
theorem FlushPage_idempotent_witness :
    (((pinnedState.FlushPage 0).2.frames 0).isDirty = false) ∧
    ((pinnedState.FlushPage 0).2.FlushPage 0).2 = (pinnedState.FlushPage 0).2 :=
  FlushPage_idempotent pinnedState 0 0 (by decide)

/-- C4: with a non-empty evictable set (all candidate histories non-empty and
time-ordered, as the replacer maintains them), `Evict` returns an evictable frame
whose backward K-distance is maximal — infinite (`kdOf … = none`) when fewer than
`k` accesses are recorded — with ties broken by the least oldest retained
timestamp; the victim's history is cleared and it leaves the evictable set, all
other state untouched; with no evictable frame `Evict` returns none. -/
theorem Evict_contract (r : LRUKReplacer)
    (hh : ∀ f ∈ r.evictable, r.nodeStore f ≠ [])
    (hfb : ∀ f ∈ r.evictable, (r.nodeStore f).headD 0 ≤ (r.nodeStore f).getLastD 0) :
    (r.evictable = [] → r.Evict = none) ∧
    (r.evictable ≠ [] → ∃ m r', r.Evict = some (m, r') ∧ m ∈ r.evictable ∧
      (∀ f ∈ r.evictable,
        kdGT (kdOf r.k (r.nodeStore m)) (kdOf r.k (r.nodeStore f)) = true ∨
        (kdOf r.k (r.nodeStore m) = kdOf r.k (r.nodeStore f) ∧
          (r.nodeStore m).headD 0 ≤ (r.nodeStore f).headD 0)) ∧
      r'.nodeStore m = [] ∧ (∀ g, g ≠ m → r'.nodeStore g = r.nodeStore g) ∧
      (∀ g, g ∈ r'.evictable ↔ g ∈ r.evictable ∧ g ≠ m) ∧
      r'.numFrames = r.numFrames ∧ r'.k = r.k ∧
      r'.currentTimestamp = r.currentTimestamp) := by
  constructor
  · exact Evict_of_evictable_nil
  · intro hne
    cases hevl : r.evictable with
    | nil => exact absurd hevl hne
    | cons e0 es =>
      obtain ⟨m, r', hev, hmem, hdom, hns, hnsne, hevm, hnf, hk, hts⟩ := Evict_some_spec hevl
      rw [hevl] at hmem hdom hevm
      exact ⟨m, r', hev, hmem, hdom, hns, hnsne, hevm, hnf, hk, hts⟩

/-- A three-frame LRU-2 replacer: frame 0 accessed at 1 and 5 (distance 4),
frame 1 accessed once at 2 (infinite distance), frame 2 accessed at 3 and 4
(distance 1); all evictable. -/
def sampleReplacer : LRUKReplacer :=
  ⟨3, 2,
   fun f => if f = 0 then [1, 5] else if f = 1 then [2] else if f = 2 then [3, 4] else [],
   [0, 1, 2], 6⟩

/-- Witness for C4 at the sample replacer (frame 1, the only infinite-distance
candidate, must be the victim). -/
theorem Evict_contract_witness :
    (sampleReplacer.evictable = [] → sampleReplacer.Evict = none) ∧
    (sampleReplacer.evictable ≠ [] → ∃ m r', sampleReplacer.Evict = some (m, r') ∧
      m ∈ sampleReplacer.evictable ∧
      (∀ f ∈ sampleReplacer.evictable,
        kdGT (kdOf sampleReplacer.k (sampleReplacer.nodeStore m))
          (kdOf sampleReplacer.k (sampleReplacer.nodeStore f)) = true ∨
        (kdOf sampleReplacer.k (sampleReplacer.nodeStore m) =
          kdOf sampleReplacer.k (sampleReplacer.nodeStore f) ∧
          (sampleReplacer.nodeStore m).headD 0 ≤ (sampleReplacer.nodeStore f).headD 0)) ∧
      r'.nodeStore m = [] ∧ (∀ g, g ≠ m → r'.nodeStore g = sampleReplacer.nodeStore g) ∧
      (∀ g, g ∈ r'.evictable ↔ g ∈ sampleReplacer.evictable ∧ g ≠ m) ∧
      r'.numFrames = sampleReplacer.numFrames ∧ r'.k = sampleReplacer.k ∧
      r'.currentTimestamp = sampleReplacer.currentTimestamp) :=
  Evict_contract sampleReplacer (by decide) (by decide)

/-- C9: for a frame id outside `[0, num_frames)` (the replacer's evictable set
being in range, as it always is), `Remove` returns normally with the replacer
unchanged — it performs no range check, only the evictable-membership test —
while `RecordAccess` and `SetEvictable` fail with the InvalidFrame exception. -/
theorem out_of_range_frame_contract (r : LRUKReplacer) (f : Int)
    (hf : f < 0 ∨ (r.numFrames : Int) ≤ f)
    (hev : ∀ g ∈ r.evictable, 0 ≤ g ∧ g < (r.numFrames : Int)) :
    r.Remove f = r ∧
    r.RecordAccess f = Except.error "Invalid frame ID" ∧
    (∀ b, r.SetEvictable f b = Except.error "Invalid frame ID") := by
  have hfm : f ∉ r.evictable := by
    intro hm
    rcases hf with h | h
    · exact absurd (hev f hm).1 (by omega)
    · exact absurd (hev f hm).2 (by omega)
  refine ⟨?_, ?_, ?_⟩
  · unfold LRUKReplacer.Remove
    rw [if_neg hfm]
  · unfold LRUKReplacer.RecordAccess
    rw [if_pos hf]
  · intro b
    unfold LRUKReplacer.SetEvictable
    rw [if_pos hf]

/-- Witness for C9: frame ids 5 and -1 against the three-frame sample replacer. -/
theorem out_of_range_frame_contract_witness :
    sampleReplacer.Remove 5 = sampleReplacer ∧
    sampleReplacer.RecordAccess 5 = Except.error "Invalid frame ID" ∧
    sampleReplacer.SetEvictable 5 true = Except.error "Invalid frame ID" ∧
    sampleReplacer.Remove (-1) = sampleReplacer ∧
    sampleReplacer.RecordAccess (-1) = Except.error "Invalid frame ID" ∧
    sampleReplacer.SetEvictable (-1) false = Except.error "Invalid frame ID" :=
  ⟨(out_of_range_frame_contract sampleReplacer 5 (by decide) (by decide)).1,
   (out_of_range_frame_contract sampleReplacer 5 (by decide) (by decide)).2.1,
   (out_of_range_frame_contract sampleReplacer 5 (by decide) (by decide)).2.2 true,
   (out_of_range_frame_contract sampleReplacer (-1) (by decide) (by decide)).1,
   (out_of_range_frame_contract sampleReplacer (-1) (by decide) (by decide)).2.1,
   (out_of_range_frame_contract sampleReplacer (-1) (by decide) (by decide)).2.2 false⟩

/-- The exhausted one-frame pool: page 0 allocated and pinned, free list empty,
nothing evictable. -/
def exhaustedState : BufferPoolManager := step (BufferPoolManager.new 1 1) Op.newPage

/-- C2 (code defect): with every frame pinned, `FetchPage` returns null.
`FetchPageBasic` wraps the null in an empty guard whose release is a no-op — but
`FetchPageRead` and `FetchPageWrite` call `page->RLatch()` / `page->WLatch()`
on the null `Page` pointer without a check, modelled as `none`: a null-pointer
dereference rather than an empty guard. -/
theorem pool_exhausted_guarded_fetch :
    exhaustedState.FetchPage 5 = none ∧
    exhaustedState.FetchPageBasic 5 = (exhaustedState, ⟨none, false⟩) ∧
    BasicPageGuard.Drop exhaustedState ⟨none, false⟩ = (exhaustedState, ⟨none, false⟩) ∧
    exhaustedState.FetchPageRead 5 = none ∧
    exhaustedState.FetchPageWrite 5 = none :=
  ⟨rfl, rfl, rfl, rfl, rfl⟩

/-- A junk default for destructing `FetchPageRead` results. -/
def rgJunk : BufferPoolManager × ReadPageGuard :=
  (BufferPoolManager.new 2 1, ⟨⟨none, false⟩⟩)

/-- Read guard over page 0 in a two-frame pool. -/
def rgT1 : BufferPoolManager × ReadPageGuard :=
  ((BufferPoolManager.new 2 1).FetchPageRead 0).getD rgJunk

/-- Read guard over page 1, fetched after page 0. -/
def rgT2 : BufferPoolManager × ReadPageGuard :=
  (rgT1.1.FetchPageRead 1).getD rgJunk

/-- Move-assigning the page-1 guard into the occupied page-0 guard. -/
def rgAfter : BufferPoolManager × ReadPageGuard × ReadPageGuard :=
  ReadPageGuard.assign rgT2.1 rgT1.2 rgT2.2

/-- C7 (code defect): before the move-assignment the page-0 frame is pinned once
with one shared latch held; the assignment performs only the basic release of
the old resource — the pin is dropped but the shared latch is never released
(`latchR` stays 1) — then takes ownership of the source, which becomes empty. -/
theorem readGuard_move_assign_leaks_latch :
    (rgT2.1.frames 0).latchR = 1 ∧ (rgT2.1.frames 0).pinCount = 1 ∧
    rgT1.2.guard.page = some 0 ∧ rgT2.2.guard.page = some 1 ∧
    (rgAfter.1.frames 0).latchR = 1 ∧ (rgAfter.1.frames 0).pinCount = 0 ∧
    rgAfter.2.1.guard.page = some 1 ∧ rgAfter.2.2.guard.page = none := by
  decide

/-- The page ids handed out by successful `new_page` calls along an operation
sequence. -/
def newIds (s : BufferPoolManager) : List Op → List Int
  | [] => []
  | op :: ops =>
    (match op, s.NewPage with
     | Op.newPage, some (pid, _) => [pid]
     | _, _ => []) ++ newIds (step s op) ops

theorem FindAndEvictFrame_nextPageId {s s1 : BufferPoolManager} {f : Int}
    (h : s.FindAndEvictFrame = some (f, s1)) : s1.nextPageId = s.nextPageId := by
  cases hfl : s.freeList with
  | cons f0 rest =>
    rw [FindAndEvictFrame_cons hfl] at h
    simp only [Option.some.injEq, Prod.mk.injEq] at h
    rw [← h.2]
  | nil =>
    cases hev : s.replacer.Evict with
    | none =>
      rw [FindAndEvictFrame_nil_none hfl hev] at h
      cases h
    | some mr =>
      obtain ⟨m, r'⟩ := mr
      cases hd : (s.frames m).isDirty with
      | true =>
        rw [FindAndEvictFrame_nil_dirty hfl hev hd] at h
        simp only [Option.some.injEq, Prod.mk.injEq] at h
        rw [← h.2]
      | false =>
        rw [FindAndEvictFrame_nil_clean hfl hev hd] at h
        simp only [Option.some.injEq, Prod.mk.injEq] at h
        rw [← h.2]

theorem step_nextPageId_le (s : BufferPoolManager) (op : Op) :
    s.nextPageId ≤ (step s op).nextPageId := by
  cases op with
  | newPage =>
    cases hop : s.FindAndEvictFrame with
    | none => rw [step_newPage_none (NewPage_eq_none hop)]
    | some fs =>
      obtain ⟨f, s1⟩ := fs
      rw [step_newPage_some (NewPage_eq_some hop)]
      show s.nextPageId ≤ s1.nextPageId + 1
      rw [FindAndEvictFrame_nextPageId hop]
      omega
  | fetchPage p =>
    cases hpt : s.pageTable (p : Int) with
    | some f => rw [step_fetchPage_some (FetchPage_hit hpt)]
    | none =>
      cases hop : s.FindAndEvictFrame with
      | none => rw [step_fetchPage_none (FetchPage_miss_none hpt hop)]
      | some fs =>
        obtain ⟨f, s1⟩ := fs
        rw [step_fetchPage_some (FetchPage_miss_some hpt hop)]
        show s.nextPageId ≤ s1.nextPageId
        rw [FindAndEvictFrame_nextPageId hop]
  | unpinPage p d =>
    rw [step_unpinPage]
    cases hpt : s.pageTable (p : Int) with
    | none => rw [UnpinPage_none hpt]
    | some f =>
      by_cases h0 : (s.frames f).pinCount = 0
      · rw [UnpinPage_zero hpt h0]
      · by_cases h1 : (s.frames f).pinCount - 1 = 0
        · rw [UnpinPage_toZero hpt h0 h1]
        · rw [UnpinPage_dec hpt h0 h1]
  | flushPage p =>
    rw [step_flushPage]
    cases hpt : s.pageTable (p : Int) with
    | none => rw [FlushPage_none hpt]
    | some f => rw [FlushPage_some hpt]
  | deletePage p =>
    rw [step_deletePage]
    cases hpt : s.pageTable (p : Int) with
    | none => rw [DeletePage_not_resident hpt]
    | some f =>
      by_cases hpin : 1 ≤ (s.frames f).pinCount
      · rw [DeletePage_pinned hpt hpin]
      · cases hd : (s.frames f).isDirty with
        | true => rw [DeletePage_ok_dirty hpt hpin hd]
        | false => rw [DeletePage_ok_clean hpt hpin hd]

theorem newIds_sorted_aux : ∀ (ops : List Op) (s : BufferPoolManager),
    (∀ x ∈ newIds s ops, s.nextPageId ≤ x) ∧ (newIds s ops).Pairwise (· < ·) := by
  intro ops
  induction ops with
  | nil =>
    intro s
    constructor
    · intro x hx
      cases hx
    · exact List.Pairwise.nil
  | cons op ops ih =>
    intro s
    cases op with
    | newPage =>
      cases hop : s.FindAndEvictFrame with
      | none =>
        have hnp := NewPage_eq_none hop
        have hstep := step_newPage_none hnp
        constructor
        · intro x hx
          simp only [newIds, hnp] at hx
          rw [hstep] at hx
          exact (ih s).1 x hx
        · simp only [newIds, hnp]
          rw [hstep]
          exact (ih s).2
      | some fs =>
        obtain ⟨f, s1⟩ := fs
        have hnp := NewPage_eq_some hop
        have hstep := step_newPage_some hnp
        have hn1 : s1.nextPageId = s.nextPageId := FindAndEvictFrame_nextPageId hop
        have htail : ∀ x ∈ newIds (step s Op.newPage) ops,
            s.nextPageId + 1 ≤ x := by
          intro x hx
          have := (ih (step s Op.newPage)).1 x hx
          rw [hstep] at this
          show s.nextPageId + 1 ≤ x
          calc s.nextPageId + 1 = s1.nextPageId + 1 := by rw [hn1]
            _ ≤ x := this
        constructor
        · intro x hx
          simp only [newIds, hnp] at hx
          rcases List.mem_append.mp hx with hone | htwo
          · rw [List.mem_singleton] at hone
            rw [hone, hn1]
          · have := htail x htwo
            omega
        · simp only [newIds, hnp]
          refine List.Pairwise.cons ?_ (ih (step s Op.newPage)).2
          intro x hx
          have := htail x hx
          rw [hn1]
          omega
    | fetchPage p =>
      constructor
      · intro x hx
        simp only [newIds] at hx
        rw [List.nil_append] at hx
        exact le_trans (step_nextPageId_le s (Op.fetchPage p))
          ((ih (step s (Op.fetchPage p))).1 x hx)
      · simp only [newIds]
        rw [List.nil_append]
        exact (ih (step s (Op.fetchPage p))).2
    | unpinPage p d =>
      constructor
      · intro x hx
        simp only [newIds] at hx
        rw [List.nil_append] at hx
        exact le_trans (step_nextPageId_le s (Op.unpinPage p d))
          ((ih (step s (Op.unpinPage p d))).1 x hx)
      · simp only [newIds]
        rw [List.nil_append]
        exact (ih (step s (Op.unpinPage p d))).2
    | flushPage p =>
      constructor
      · intro x hx
        simp only [newIds] at hx
        rw [List.nil_append] at hx
        exact le_trans (step_nextPageId_le s (Op.flushPage p))
          ((ih (step s (Op.flushPage p))).1 x hx)
      · simp only [newIds]
        rw [List.nil_append]
        exact (ih (step s (Op.flushPage p))).2
    | deletePage p =>
      constructor
      · intro x hx
        simp only [newIds] at hx
        rw [List.nil_append] at hx
        exact le_trans (step_nextPageId_le s (Op.deletePage p))
          ((ih (step s (Op.deletePage p))).1 x hx)
      · simp only [newIds]
        rw [List.nil_append]
        exact (ih (step s (Op.deletePage p))).2

/-- C10: along any operation sequence from a fresh manager, the page ids handed
out by successful `new_page` calls are pairwise strictly increasing — ids are
never reused even after `delete_page`, whose `DeallocatePage` call is a
notification only. -/
theorem newPage_ids_strictly_increasing (n k : Nat) (ops : List Op) :
    (newIds (BufferPoolManager.new n k) ops).Pairwise (· < ·) :=
  (newIds_sorted_aux ops (BufferPoolManager.new n k)).2

end BusTub
